import Mathlib

/-!
Shallow embedding of the inventory-management backend (src/api/server.js)
over the relational schema of src/database/schema.sql, together with proofs
about its ledger operations.

Conventions of the embedding:
* SQL NUMERIC(10,2) amounts and INT quantities are modelled as `Int`.
* DATE / TIMESTAMP values are modelled as `Nat` day numbers.
* A table is a `List` of row structures; SERIAL ids are drawn from
  explicit counters carried in the state.
* Each HTTP handler body becomes a function `DB → Except DbError DB`;
  the `BEGIN`/`COMMIT`/`ROLLBACK` discipline of the source means that an
  erroring operation leaves the state unchanged, which `applyOp` realises
  by keeping the input state on `.error`.
* The CHECK constraints of schema.sql (stock.quantity >= 0,
  sale_items.quantity > 0, sale_items.line_total >= 0,
  sales.total_amount >= 0, sales.paid_amount >= 0,
  borrowers.outstanding_amount >= 0, borrower_payments.amount_paid >= 0)
  are modelled at each INSERT/UPDATE: a write that would violate one
  fails the transaction.  The UNIQUE (product_id, expired_date) index on
  expired_stock added by src/api/setup-db.js is modelled in the expiry
  sweep.
* JavaScript falsiness checks such as `!amount` reject exactly the zero
  value (and, for strings, the empty string); they are modelled that way.
-/

namespace Inventory

/-- Payment types allowed by the sales.payment_type CHECK constraint. -/
inductive PayType where
  | CASH
  | ONLINE
  | BORROW
deriving DecidableEq, Repr

/-- Row of the products table. -/
structure Product where
  id : Nat
  name : String
  price : Int
  expiry_date : Nat
deriving DecidableEq, Repr

/-- Row of the stock table. -/
structure StockRow where
  id : Nat
  product_id : Nat
  quantity : Int
deriving DecidableEq, Repr

/-- Row of the expired_stock table. -/
structure ExpiredRow where
  product_id : Nat
  quantity : Int
  expired_date : Nat
deriving DecidableEq, Repr

/-- Row of the sales table. -/
structure Sale where
  id : Nat
  sale_date : Nat
  customer_name : Option String
  payment_type : PayType
  total_amount : Int
  discount_amount : Int
  paid_amount : Int
  borrow_amount : Int
deriving DecidableEq, Repr

/-- Row of the sale_items table. -/
structure SaleItem where
  sale_id : Nat
  product_id : Nat
  price : Int
  quantity : Int
  line_total : Int
deriving DecidableEq, Repr

/-- Row of the borrowers table. -/
structure Borrower where
  id : Nat
  name : String
  outstanding_amount : Int
deriving DecidableEq, Repr

/-- Row of the borrower_payments table. -/
structure PaymentRow where
  borrower_id : Nat
  amount_paid : Int
deriving DecidableEq, Repr

/-- The whole relational state, with the SERIAL counters. -/
structure DB where
  products : List Product
  stock : List StockRow
  expired : List ExpiredRow
  sales : List Sale
  sale_items : List SaleItem
  borrowers : List Borrower
  payments : List PaymentRow
  next_product_id : Nat
  next_stock_id : Nat
  next_sale_id : Nat
  next_borrower_id : Nat
deriving DecidableEq, Repr

/-- Failure outcomes of an operation, by failure site in server.js:
`missingFields` are the 400 validation responses, `checkViolation` is a
schema CHECK constraint aborting the transaction. -/
inductive DbError where
  | missingFields
  | noSaleItems
  | saleNotFound
  | borrowerNotFound
  | invalidProduct
  | checkViolation
deriving DecidableEq, Repr

/-- Model of `UPDATE stock SET quantity = quantity + d WHERE product_id = pid`:
all matching rows are updated, and the stock.quantity >= 0 CHECK rejects the
write if any updated row would go negative. -/
def stockAdjust (pid : Nat) (d : Int) (stock : List StockRow) :
    Option (List StockRow) :=
  if ∀ r ∈ stock, r.product_id = pid → 0 ≤ r.quantity + d then
    some (stock.map fun r =>
      if r.product_id = pid then { r with quantity := r.quantity + d } else r)
  else none

/-- Model of `UPDATE borrowers SET outstanding_amount = outstanding_amount + d
WHERE id = bid`, with the outstanding_amount >= 0 CHECK. -/
def borrowerAdjust (bid : Nat) (d : Int) (db : DB) : Option DB :=
  if ∀ b ∈ db.borrowers, b.id = bid → 0 ≤ b.outstanding_amount + d then
    some { db with borrowers := db.borrowers.map fun b =>
      if b.id = bid then { b with outstanding_amount := b.outstanding_amount + d } else b }
  else none

/-- SQL aggregate `COALESCE(SUM(borrow_amount),0) FROM sales WHERE
customer_name = name`. -/
def sumBorrow (name : String) (sales : List Sale) : Int :=
  ((sales.filter fun s => decide (s.customer_name = some name)).map
    (·.borrow_amount)).sum

/-- Helper `syncBorrowerOutstanding` of server.js: recompute the borrower's
outstanding from its sales, writing 0 when the sum is not positive; a silent
no-op when no borrower row carries that name. -/
def syncBorrowerOutstanding (name : String) (db : DB) : DB :=
  match db.borrowers.find? (fun b => decide (b.name = name)) with
  | none => db
  | some b =>
      let totalBorrow := sumBorrow name db.sales
      let v := if totalBorrow ≤ 0 then 0 else totalBorrow
      { db with borrowers := db.borrowers.map fun x =>
          if x.id = b.id then { x with outstanding_amount := v } else x }

/-- Items of one sale, `SELECT ... FROM sale_items WHERE sale_id = sid`. -/
def itemsOf (sid : Nat) (db : DB) : List SaleItem :=
  db.sale_items.filter fun it => decide (it.sale_id = sid)

/-- The accumulation `total += price * quantity` over a sale's items in
`recomputeSaleTotals`. -/
def saleItemsTotal (sid : Nat) (db : DB) : Int :=
  ((itemsOf sid db).map fun it => it.price * it.quantity).sum

/-- The borrow computation of `recomputeSaleTotals`: `total - paid` for a
BORROW sale clamped below at 0, and 0 otherwise. -/
def clampedBorrow (pt : PayType) (total paid : Int) : Int :=
  if pt = PayType.BORROW then
    if total - paid < 0 then 0 else total - paid
  else 0

/-- Helper `recomputeSaleTotals` of server.js: sum price*quantity over the
sale's items, clamp the borrow amount at 0 for BORROW sales, and write both
back onto the sale row (the total_amount >= 0 CHECK applies). -/
def recomputeSaleTotals (sid : Nat) (db : DB) : Option (DB × Int × Int) :=
  match db.sales.find? (fun s => decide (s.id = sid)) with
  | none => none
  | some sale =>
      if 0 ≤ saleItemsTotal sid db then
        some ({ db with sales := db.sales.map fun s =>
          if s.id = sid then
            { s with
              total_amount := saleItemsTotal sid db,
              borrow_amount := clampedBorrow sale.payment_type
                (saleItemsTotal sid db) sale.paid_amount }
          else s },
          saleItemsTotal sid db,
          clampedBorrow sale.payment_type (saleItemsTotal sid db) sale.paid_amount)
      else none

/-- Caller-side item of a sale request body. -/
structure SaleItemIn where
  product_id : Nat
  price : Int
  quantity : Int
deriving DecidableEq, Repr

/-- Request body of the sales POST route. -/
structure CreateSaleIn where
  customer_name : Option String
  payment_type : PayType
  items : List SaleItemIn
  total_amount : Int
  discount_amount : Int
  paid_amount : Int
deriving DecidableEq, Repr

/-- The borrow amount the sales POST route computes (unclamped,
`payment_type === "BORROW" ? total_amount - paid_amount : 0`). -/
def borrowOf (inp : CreateSaleIn) : Int :=
  if inp.payment_type = PayType.BORROW then inp.total_amount - inp.paid_amount
  else 0

/-- The sale header row the sales POST route inserts, with the SERIAL id
and `NOW()` date. -/
def newSaleOf (inp : CreateSaleIn) (today : Nat) (db : DB) : Sale :=
  ⟨db.next_sale_id, today, inp.customer_name, inp.payment_type,
    inp.total_amount, inp.discount_amount, inp.paid_amount, borrowOf inp⟩

/-- The sale_items rows the sales POST route inserts. -/
def newItemsOf (inp : CreateSaleIn) (db : DB) : List SaleItem :=
  inp.items.map fun it =>
    ⟨db.next_sale_id, it.product_id, it.price, it.quantity,
      it.price * it.quantity⟩

/-- Item-insertion loop of the sales POST route: per item, debit stock
(stock CHECK) then insert the sale_items row with the caller price and
line_total = price * quantity (sale_items CHECKs quantity > 0 and
line_total >= 0). -/
def insertItemsLoop (saleId : Nat) (items : List SaleItemIn) (db : DB) :
    Option DB :=
  match items with
  | [] => some db
  | it :: rest =>
      match stockAdjust it.product_id (-it.quantity) db.stock with
      | none => none
      | some st =>
          if 0 < it.quantity ∧ 0 ≤ it.price * it.quantity then
            insertItemsLoop saleId rest
              { db with
                stock := st,
                sale_items := db.sale_items ++
                  [⟨saleId, it.product_id, it.price, it.quantity,
                    it.price * it.quantity⟩] }
          else none

/-- The sales POST route of server.js (createSale): reject an empty item
list, compute borrow_amount = total_amount - paid_amount for BORROW sales
(unclamped, from the caller-supplied total), insert the sale header (sales
CHECKs), run the item loop, then upsert the borrower when borrow_amount is
positive and a customer name is given. -/
def createSale (inp : CreateSaleIn) (today : Nat) (db : DB) :
    Except DbError DB :=
  if inp.items.isEmpty then Except.error DbError.noSaleItems
  else if 0 ≤ inp.total_amount ∧ 0 ≤ inp.paid_amount then
    match insertItemsLoop db.next_sale_id inp.items
        { db with
          sales := db.sales ++ [newSaleOf inp today db],
          next_sale_id := db.next_sale_id + 1 } with
    | none => Except.error DbError.checkViolation
    | some db2 =>
        if 0 < borrowOf inp then
          match inp.customer_name with
          | none => Except.ok db2
          | some cname =>
              match db2.borrowers.find? (fun b => decide (b.name = cname)) with
              | none =>
                  Except.ok { db2 with
                    borrowers := db2.borrowers ++
                      [⟨db2.next_borrower_id, cname, borrowOf inp⟩],
                    next_borrower_id := db2.next_borrower_id + 1 }
              | some b =>
                  match borrowerAdjust b.id (borrowOf inp) db2 with
                  | none => Except.error DbError.checkViolation
                  | some db3 => Except.ok db3
        else Except.ok db2
  else Except.error DbError.checkViolation

/-- Request body of the edit-bill POST route.  The caller sends a price
field inside items as well; the handler never reads it. -/
structure EditSaleIn where
  sale_id : Nat
  customer_name : Option String
  payment_type : PayType
  discount_amount : Int
  paid_amount : Int
  items : List SaleItemIn
deriving DecidableEq, Repr

/-- Stock-restore loop shared by edit-bill and delete-bill: credit each
item quantity back, `UPDATE stock SET quantity = quantity + q`. -/
def restoreLoop (items : List SaleItem) (db : DB) : Option DB :=
  match items with
  | [] => some db
  | it :: rest =>
      match stockAdjust it.product_id it.quantity db.stock with
      | none => none
      | some st => restoreLoop rest { db with stock := st }

/-- Item re-insertion loop of the edit-bill route: quantities that are not
positive are skipped; the price written is looked up from the products
table (the caller price is ignored); stock is debited per item. -/
def editInsertLoop (sid : Nat) (items : List SaleItemIn) (db : DB) :
    Except DbError DB :=
  match items with
  | [] => Except.ok db
  | it :: rest =>
      if it.quantity ≤ 0 then editInsertLoop sid rest db
      else
        match db.products.find? (fun p => decide (p.id = it.product_id)) with
        | none => Except.error DbError.invalidProduct
        | some p =>
            match stockAdjust it.product_id (-it.quantity) db.stock with
            | none => Except.error DbError.checkViolation
            | some st =>
                if 0 ≤ p.price * it.quantity then
                  editInsertLoop sid rest
                    { db with
                      stock := st,
                      sale_items := db.sale_items ++
                        [⟨sid, it.product_id, p.price, it.quantity,
                          p.price * it.quantity⟩] }
                else Except.error DbError.checkViolation

/-- The sync at step 6 of the edit-bill route for the old customer name:
run only when the sale had a customer and the name changed. -/
def syncOldIfChanged (oldName newName : Option String) (db : DB) : DB :=
  match oldName with
  | some o => if newName ≠ some o then syncBorrowerOutstanding o db else db
  | none => db

/-- Sync a customer name when one is present (the `if (customer_name)`
guards of server.js). -/
def maybeSync (name : Option String) (db : DB) : DB :=
  match name with
  | some c => syncBorrowerOutstanding c db
  | none => db

/-- The `DELETE FROM sale_items WHERE sale_id = sid` statement. -/
def dropSaleItems (sid : Nat) (db : DB) : DB :=
  { db with sale_items := db.sale_items.filter fun it => decide (it.sale_id ≠ sid) }

/-- The deletion of a sale's items and of the sale row itself in the
delete-bill route. -/
def dropSale (sid : Nat) (db : DB) : DB :=
  { db with
    sale_items := db.sale_items.filter fun it => decide (it.sale_id ≠ sid),
    sales := db.sales.filter fun s => decide (s.id ≠ sid) }

/-- The header UPDATE of step 4 of the edit-bill route (the paid_amount
CHECK is applied by the caller). -/
def editHeader (inp : EditSaleIn) (db : DB) : DB :=
  { db with sales := db.sales.map fun s =>
      if s.id = inp.sale_id then
        { s with
          customer_name := inp.customer_name,
          payment_type := inp.payment_type,
          discount_amount := inp.discount_amount,
          paid_amount := inp.paid_amount }
      else s }

/-- The edit-bill POST route of server.js (editSale): restore stock from the
current items, delete them, insert the new item set at products-table
prices, rewrite the header from the request, recompute totals, then sync
the old customer (when changed) and the new customer. -/
def editSale (inp : EditSaleIn) (db : DB) : Except DbError DB :=
  if inp.sale_id = 0 then Except.error DbError.missingFields
  else
    match db.sales.find? (fun s => decide (s.id = inp.sale_id)) with
    | none => Except.error DbError.saleNotFound
    | some oldSale =>
        match restoreLoop (itemsOf inp.sale_id db) db with
        | none => Except.error DbError.checkViolation
        | some dbA =>
            match editInsertLoop inp.sale_id inp.items
                (dropSaleItems inp.sale_id dbA) with
            | Except.error e => Except.error e
            | Except.ok dbC =>
                if 0 ≤ inp.paid_amount then
                  match recomputeSaleTotals inp.sale_id (editHeader inp dbC) with
                  | none => Except.error DbError.checkViolation
                  | some (dbE, _, _) =>
                      Except.ok (maybeSync inp.customer_name
                        (syncOldIfChanged oldSale.customer_name
                          inp.customer_name dbE))
                else Except.error DbError.checkViolation

/-- The delete-bill POST route of server.js (deleteSale): restore stock for
the sale's items, delete the items then the sale, and sync the customer's
borrower row when the sale carried a customer name. -/
def deleteSale (sid : Nat) (db : DB) : Except DbError DB :=
  if sid = 0 then Except.error DbError.missingFields
  else
    match db.sales.find? (fun s => decide (s.id = sid)) with
    | none => Except.error DbError.saleNotFound
    | some sale =>
        match restoreLoop (itemsOf sid db) db with
        | none => Except.error DbError.checkViolation
        | some dbA =>
            Except.ok (maybeSync sale.customer_name (dropSale sid dbA))

/-- FIFO application loop of the borrower-payments POST route: walk the
snapshot of open BORROW sales, apply `min remaining borrow_amount` to each,
and stop once nothing remains.  The paid_amount >= 0 CHECK applies to each
update. -/
def fifoLoop (remaining : Int) (rows : List Sale) (db : DB) : Option DB :=
  match rows with
  | [] => some db
  | s :: rest =>
      if remaining ≤ 0 then some db
      else
        if ∀ x ∈ db.sales, x.id = s.id →
            0 ≤ x.paid_amount + min remaining s.borrow_amount then
          fifoLoop (remaining - min remaining s.borrow_amount) rest
            { db with sales := db.sales.map fun x =>
                if x.id = s.id then
                  { x with
                    paid_amount := x.paid_amount + min remaining s.borrow_amount,
                    borrow_amount := x.borrow_amount - min remaining s.borrow_amount }
                else x }
        else none

/-- Snapshot `SELECT id, borrow_amount FROM sales WHERE customer_name = name
AND borrow_amount > 0 ORDER BY sale_date ASC` (a stable sort on the date;
the full rows are kept for convenience). -/
def openSalesOf (name : String) (db : DB) : List Sale :=
  (db.sales.filter fun s =>
    decide (s.customer_name = some name) &&
      decide (0 < s.borrow_amount)).insertionSort
    (fun a b => a.sale_date ≤ b.sale_date)

/-- The borrower-payments POST route of server.js (recordBorrowerPayment):
reject JS-falsy fields, look up the borrower, insert the payment row
(amount_paid >= 0 CHECK), pre-decrement the outstanding amount
(outstanding_amount >= 0 CHECK, so an overpayment aborts here), apply the
amount FIFO over the open BORROW sales, then sync the borrower. -/
def recordBorrowerPayment (borrower_id : Nat) (amount : Int) (db : DB) :
    Except DbError DB :=
  if borrower_id = 0 ∨ amount = 0 then Except.error DbError.missingFields
  else
    match db.borrowers.find? (fun b => decide (b.id = borrower_id)) with
    | none => Except.error DbError.borrowerNotFound
    | some b =>
        if 0 ≤ amount then
          match borrowerAdjust borrower_id (-amount)
              { db with payments := db.payments ++ [⟨borrower_id, amount⟩] } with
          | none => Except.error DbError.checkViolation
          | some db2 =>
              match fifoLoop amount (openSalesOf b.name db2) db2 with
              | none => Except.error DbError.checkViolation
              | some db3 => Except.ok (syncBorrowerOutstanding b.name db3)
        else Except.error DbError.checkViolation

/-- The stock write of the stock POST route: create the stock row when the
product has none (stock CHECK on the inserted quantity), otherwise
increment the existing row. -/
def addStockQty (pid : Nat) (quantity : Int) (db : DB) : Except DbError DB :=
  if (db.stock.filter fun r => decide (r.product_id = pid)).isEmpty then
    if 0 ≤ quantity then
      Except.ok { db with
        stock := db.stock ++ [⟨db.next_stock_id, pid, quantity⟩],
        next_stock_id := db.next_stock_id + 1 }
    else Except.error DbError.checkViolation
  else
    match stockAdjust pid quantity db.stock with
    | none => Except.error DbError.checkViolation
    | some st => Except.ok { db with stock := st }

/-- The stock POST route of server.js (addStock): reject JS-falsy fields
(the date field is always a value here, so its falsiness test is vacuous),
upsert the product by the (name, price, expiry_date) UNIQUE triple, then
insert or increment the stock row. -/
def addStock (name : String) (price : Int) (expiry_date : Nat)
    (quantity : Int) (db : DB) : Except DbError DB :=
  if name = "" ∨ price = 0 ∨ quantity = 0 then Except.error DbError.missingFields
  else
    match db.products.find? (fun p =>
        decide (p.name = name) && decide (p.price = price) &&
          decide (p.expiry_date = expiry_date)) with
    | some p => addStockQty p.id quantity db
    | none =>
        addStockQty db.next_product_id quantity
          { db with
            products := db.products ++ [⟨db.next_product_id, name, price, expiry_date⟩],
            next_product_id := db.next_product_id + 1 }

/-- Join condition of the sweep SELECT: the stock row's product exists and
has expired. -/
def isExpiredRow (products : List Product) (asOf : Nat) (r : StockRow) : Bool :=
  match products.find? (fun p => decide (p.id = r.product_id)) with
  | some p => decide (p.expiry_date < asOf)
  | none => false

/-- Join used by the sweep: stock rows whose product has expired. -/
def expiredSelect (asOf : Nat) (db : DB) : List StockRow :=
  db.stock.filter (isExpiredRow db.products asOf)

/-- Presence of an expired_stock row for the UNIQUE (product_id,
expired_date) index of setup-db.js. -/
def hasExpired (db : DB) (pid asOf : Nat) : Bool :=
  db.expired.any fun e => decide (e.product_id = pid) && decide (e.expired_date = asOf)

/-- Loop body of `moveExpiredStock`: for each selected row, insert the
expired_stock record when the quantity is positive (a UNIQUE violation
stops the loop, keeping the effects already committed, since the sweep
runs outside any transaction), then delete the stock row. -/
def sweepLoop (asOf : Nat) (rows : List StockRow) (db : DB) : DB :=
  match rows with
  | [] => db
  | r :: rest =>
      if 0 < r.quantity then
        if hasExpired db r.product_id asOf then db
        else
          sweepLoop asOf rest
            { db with
              expired := db.expired ++ [⟨r.product_id, r.quantity, asOf⟩],
              stock := db.stock.filter fun x => decide (x.id ≠ r.id) }
      else
        sweepLoop asOf rest
          { db with stock := db.stock.filter fun x => decide (x.id ≠ r.id) }

/-- Database effect of `moveExpiredStock` in server.js for a given run date
(the process-wide once-per-day debounce variable is an optimization outside
the store and is not part of the state modelled here). -/
def moveExpiredStock (asOf : Nat) (db : DB) : DB :=
  sweepLoop asOf (expiredSelect asOf db) db

/-- One externally triggered operation against the store. -/
inductive Op where
  | create (inp : CreateSaleIn) (today : Nat)
  | edit (inp : EditSaleIn)
  | delete (sid : Nat)
  | payment (borrower_id : Nat) (amount : Int)
  | addstock (name : String) (price : Int) (expiry_date : Nat) (quantity : Int)
  | sweep (asOf : Nat)
deriving Repr

/-- Transactional semantics of one request: a failing operation rolls back,
leaving the state unchanged. -/
def applyOp (op : Op) (db : DB) : DB :=
  match op with
  | Op.create inp today =>
      match createSale inp today db with
      | Except.ok d => d
      | Except.error _ => db
  | Op.edit inp =>
      match editSale inp db with
      | Except.ok d => d
      | Except.error _ => db
  | Op.delete sid =>
      match deleteSale sid db with
      | Except.ok d => d
      | Except.error _ => db
  | Op.payment bid amount =>
      match recordBorrowerPayment bid amount db with
      | Except.ok d => d
      | Except.error _ => db
  | Op.addstock name price expiry qty =>
      match addStock name price expiry qty db with
      | Except.ok d => d
      | Except.error _ => db
  | Op.sweep asOf => moveExpiredStock asOf db

/-- Fold a request sequence over the store. -/
def runOps (ops : List Op) (db : DB) : DB :=
  ops.foldl (fun d op => applyOp op d) db

/-! Claim-side definitions: invariants of the spec, the spec-worded FIFO
payment application, and concrete fixtures used by counterexamples and
witnesses. -/

/-- Rewrite the caller-supplied price field of a request item. -/
def reprice (f : SaleItemIn → Int) (it : SaleItemIn) : SaleItemIn :=
  { it with price := f it }

/-- Spec-side FIFO allocation, following the words of the specification:
walk the ordered open sales, allocate `min remaining borrow_amount` to
each, decrement the remainder, stop when nothing remains or the sales are
exhausted. -/
def specFifoAlloc (remaining : Int) : List Sale → List (Nat × Int)
  | [] => []
  | s :: rest =>
      if remaining = 0 then []
      else
        (s.id, min remaining s.borrow_amount) ::
          specFifoAlloc (remaining - min remaining s.borrow_amount) rest

/-- Spec-side effect of an allocation on the sales table: each allocated
sale's paid_amount rises and its borrow_amount falls by the allocation. -/
def applyAlloc (alloc : List (Nat × Int)) (sales : List Sale) : List Sale :=
  sales.map fun s =>
    match alloc.lookup s.id with
    | some a => { s with
        paid_amount := s.paid_amount + a,
        borrow_amount := s.borrow_amount - a }
    | none => s

/-- Invariant of claim C1: every sale's total is the sum of its items'
line totals, and every line total is price times quantity. -/
def SaleTotalsOk (db : DB) : Prop :=
  (∀ s ∈ db.sales, s.total_amount = ((itemsOf s.id db).map (·.line_total)).sum) ∧
  ∀ it ∈ db.sale_items, it.line_total = it.price * it.quantity

instance (db : DB) : Decidable (SaleTotalsOk db) := by
  unfold SaleTotalsOk; infer_instance

/-- A sale with positive borrow either carries no customer name or its
customer has a borrower row. -/
def coveredSale (db : DB) (s : Sale) : Prop :=
  0 < s.borrow_amount →
    s.customer_name = none ∨ ∃ b ∈ db.borrowers, some b.name = s.customer_name

instance (db : DB) (s : Sale) : Decidable (coveredSale db s) := by
  unfold coveredSale; infer_instance

/-- Invariant of claim C2 with the auxiliary facts that make it inductive:
every borrower's outstanding equals the borrow sum over its sales, every
borrow amount is nonnegative, and every positive-borrow named sale is
covered by a borrower row. -/
def BorrowerLedgerOk (db : DB) : Prop :=
  (∀ b ∈ db.borrowers, b.outstanding_amount = sumBorrow b.name db.sales) ∧
  (∀ s ∈ db.sales, 0 ≤ s.borrow_amount) ∧
  ∀ s ∈ db.sales, coveredSale db s

instance (db : DB) : Decidable (BorrowerLedgerOk db) := by
  unfold BorrowerLedgerOk; infer_instance

/-- Key well-formedness of the store as the schema enforces it: SERIAL
ids below their counters, primary keys distinct, and the UNIQUE borrower
name. -/
def WellFormed (db : DB) : Prop :=
  (∀ s ∈ db.sales, s.id < db.next_sale_id) ∧
  (db.sales.map (·.id)).Nodup ∧
  (∀ it ∈ db.sale_items, it.sale_id < db.next_sale_id) ∧
  (∀ b ∈ db.borrowers, b.id < db.next_borrower_id) ∧
  (db.borrowers.map (·.id)).Nodup ∧
  (db.borrowers.map (·.name)).Nodup

instance (db : DB) : Decidable (WellFormed db) := by
  unfold WellFormed; infer_instance

/-- No stock row is negative. -/
def StockNonneg (db : DB) : Prop := ∀ r ∈ db.stock, 0 ≤ r.quantity

instance (db : DB) : Decidable (StockNonneg db) := by
  unfold StockNonneg; infer_instance

/-- Precondition of the amended claim C1 on one request: a created sale
must carry a caller total equal to the sum of its item totals. -/
def opTotalsOk : Op → Prop
  | Op.create inp _ =>
      inp.total_amount = (inp.items.map fun it => it.price * it.quantity).sum
  | _ => True

instance (op : Op) : Decidable (opTotalsOk op) := by
  cases op <;> simp only [opTotalsOk] <;> infer_instance

/-- Precondition of the amended claim C2 on one request against the state
it executes in: a BORROW creation must not be overpaid, and a BORROW edit
must name a customer that already has a borrower row (or no customer). -/
def opBorrowOk (db : DB) : Op → Prop
  | Op.create inp _ =>
      inp.payment_type = PayType.BORROW → inp.paid_amount ≤ inp.total_amount
  | Op.edit inp =>
      inp.payment_type = PayType.BORROW →
        inp.customer_name = none ∨
          ∃ b ∈ db.borrowers, some b.name = inp.customer_name
  | _ => True

instance (db : DB) (op : Op) : Decidable (opBorrowOk db op) := by
  cases op <;> simp only [opBorrowOk] <;> infer_instance

/-- The claim C2 precondition checked along the whole run. -/
def opsBorrowOk : List Op → DB → Prop
  | [], _ => True
  | op :: rest, db => opBorrowOk db op ∧ opsBorrowOk rest (applyOp op db)

instance instOpsBorrowOkDec : (ops : List Op) → (db : DB) →
    Decidable (opsBorrowOk ops db)
  | [], _ => by simp only [opsBorrowOk]; infer_instance
  | op :: rest, db => by
      simp only [opsBorrowOk]
      have := instOpsBorrowOkDec rest (applyOp op db)
      infer_instance

/-- Fixture: one product with a stock of 50 and nothing else. -/
def dbW : DB :=
  ⟨[⟨1, "Widget", 10, 100⟩], [⟨1, 1, 50⟩], [], [], [], [], [], 2, 2, 1, 1⟩

/-- Fixture: the store of `dbW` with a borrower owing 10. -/
def dbAmit : DB :=
  { dbW with borrowers := [⟨1, "Amit", 10⟩], next_borrower_id := 2 }

/-- Fixture: the state after scenario B's cash sale of 5 Widgets from a
stock of 50 (sale 1 committed, stock at 45). -/
def dbScenB : DB :=
  ⟨[⟨1, "Widget", 10, 100⟩], [⟨1, 1, 45⟩], [],
    [⟨1, 10, none, PayType.CASH, 50, 0, 50, 0⟩],
    [⟨1, 1, 10, 5, 50⟩], [], [], 2, 2, 2, 1⟩

/-- Fixture: the state after scenario C's credit sale (Amit owes 15 on
sale 1, which is paid 5 of 20). -/
def dbScenC : DB :=
  ⟨[⟨1, "Widget", 10, 100⟩], [⟨1, 1, 48⟩], [],
    [⟨1, 5, some "Amit", PayType.BORROW, 20, 0, 5, 15⟩],
    [⟨1, 1, 10, 2, 20⟩], [⟨1, "Amit", 15⟩], [], 2, 2, 2, 2⟩

/-- Sum of the quantities of the items that name a given product. -/
def qtySumFor (pid : Nat) (items : List SaleItem) : Int :=
  ((items.filter fun it => decide (it.product_id = pid)).map (·.quantity)).sum

/-- Contribution of one sale to a customer's borrow sum. -/
def contrib (n : String) (z : Sale) : Int :=
  if z.customer_name = some n then z.borrow_amount else 0

/-- Net effect of the edit-bill route on one sales row, given the total t
of the re-inserted items: the edited sale gets the request header fields
and the recomputed, clamped totals; other sales are untouched. -/
def editedSale (inp : EditSaleIn) (t : Int) (x : Sale) : Sale :=
  if x.id = inp.sale_id then
    { x with
      customer_name := inp.customer_name,
      payment_type := inp.payment_type,
      discount_amount := inp.discount_amount,
      paid_amount := inp.paid_amount,
      total_amount := t,
      borrow_amount := clampedBorrow inp.payment_type t inp.paid_amount }
  else x

/-- Spec-side description of a borrower re-sync against a sales table: when
a customer name is present and has a borrower row, that row's outstanding
becomes the borrow sum over the customer's sales clamped below at 0. -/
def syncedBorrowers (name : Option String) (sales : List Sale)
    (borrowers : List Borrower) : List Borrower :=
  match name with
  | none => borrowers
  | some c =>
      match borrowers.find? (fun b => decide (b.name = c)) with
      | none => borrowers
      | some b0 =>
          borrowers.map fun x =>
            if x.id = b0.id then
              { x with outstanding_amount := max 0 (sumBorrow c sales) }
            else x

/-! Basic lemmas about the write primitives. -/

theorem stockAdjust_some {pid : Nat} {d : Int} {stock st : List StockRow}
    (h : stockAdjust pid d stock = some st) :
    st = stock.map (fun r =>
      if r.product_id = pid then { r with quantity := r.quantity + d } else r) ∧
    ∀ r ∈ stock, r.product_id = pid → 0 ≤ r.quantity + d := by
  rw [stockAdjust] at h
  split at h
  · exact ⟨(Option.some_injective _ h).symm, by assumption⟩
  · exact absurd h (by simp)

theorem stockAdjust_nonneg {pid : Nat} {d : Int} {stock st : List StockRow}
    (h : stockAdjust pid d stock = some st)
    (h0 : ∀ r ∈ stock, 0 ≤ r.quantity) : ∀ r ∈ st, 0 ≤ r.quantity := by
  obtain ⟨rfl, hck⟩ := stockAdjust_some h
  intro r hr
  obtain ⟨x, hx, rfl⟩ := List.mem_map.mp hr
  by_cases hp : x.product_id = pid
  · simpa [hp] using hck x hx hp
  · simpa [hp] using h0 x hx

theorem stockAdjust_mono {pid : Nat} {d : Int} {stock st : List StockRow}
    (h : stockAdjust pid d stock = some st) (hd : d ≤ 0) :
    ∀ r ∈ st, ∃ x ∈ stock, r.id = x.id ∧ r.product_id = x.product_id ∧
      r.quantity ≤ x.quantity := by
  obtain ⟨rfl, -⟩ := stockAdjust_some h
  intro r hr
  obtain ⟨x, hx, rfl⟩ := List.mem_map.mp hr
  by_cases hp : x.product_id = pid
  · exact ⟨x, hx, by simp [hp], by simp [hp], by simp [hp]; omega⟩
  · exact ⟨x, hx, by simp [hp], by simp [hp], by simp [hp]⟩

theorem borrowerAdjust_some {bid : Nat} {d : Int} {db db2 : DB}
    (h : borrowerAdjust bid d db = some db2) :
    db2 = { db with borrowers := db.borrowers.map fun b =>
      if b.id = bid then { b with outstanding_amount := b.outstanding_amount + d }
      else b } ∧
    ∀ b ∈ db.borrowers, b.id = bid → 0 ≤ b.outstanding_amount + d := by
  rw [borrowerAdjust] at h
  split at h
  · exact ⟨(Option.some_injective _ h).symm, by assumption⟩
  · exact absurd h (by simp)

theorem syncBorrowerOutstanding_fields (name : String) (db : DB) :
    (syncBorrowerOutstanding name db).products = db.products ∧
    (syncBorrowerOutstanding name db).stock = db.stock ∧
    (syncBorrowerOutstanding name db).expired = db.expired ∧
    (syncBorrowerOutstanding name db).sales = db.sales ∧
    (syncBorrowerOutstanding name db).sale_items = db.sale_items ∧
    (syncBorrowerOutstanding name db).payments = db.payments ∧
    (syncBorrowerOutstanding name db).next_product_id = db.next_product_id ∧
    (syncBorrowerOutstanding name db).next_stock_id = db.next_stock_id ∧
    (syncBorrowerOutstanding name db).next_sale_id = db.next_sale_id ∧
    (syncBorrowerOutstanding name db).next_borrower_id = db.next_borrower_id := by
  rw [syncBorrowerOutstanding]
  cases db.borrowers.find? (fun b => decide (b.name = name)) <;> simp

theorem syncBorrowerOutstanding_keys (name : String) (db : DB) :
    ((syncBorrowerOutstanding name db).borrowers.map (·.id) =
      db.borrowers.map (·.id)) ∧
    (syncBorrowerOutstanding name db).borrowers.map (·.name) =
      db.borrowers.map (·.name) := by
  rw [syncBorrowerOutstanding]
  cases db.borrowers.find? (fun b => decide (b.name = name)) with
  | none => simp
  | some b =>
      constructor <;>
        · simp only [List.map_map]
          refine List.map_congr_left fun x _ => ?_
          by_cases hx : x.id = b.id <;> simp [hx]

theorem insertItemsLoop_spec {saleId : Nat} {items : List SaleItemIn}
    {db db2 : DB} (h : insertItemsLoop saleId items db = some db2) :
    db2.products = db.products ∧ db2.expired = db.expired ∧
    db2.sales = db.sales ∧ db2.borrowers = db.borrowers ∧
    db2.payments = db.payments ∧
    db2.next_product_id = db.next_product_id ∧
    db2.next_stock_id = db.next_stock_id ∧
    db2.next_sale_id = db.next_sale_id ∧
    db2.next_borrower_id = db.next_borrower_id ∧
    db2.sale_items = db.sale_items ++ items.map (fun it =>
      SaleItem.mk saleId it.product_id it.price it.quantity
        (it.price * it.quantity)) := by
  induction items generalizing db with
  | nil =>
      rw [insertItemsLoop] at h
      cases h
      simp
  | cons it rest ih =>
      rw [insertItemsLoop] at h
      split at h
      · simp at h
      split at h
      · have := ih h
        simp only at this
        simpa [List.append_assoc] using this
      · simp at h

theorem insertItemsLoop_stock {saleId : Nat} {items : List SaleItemIn}
    {db db2 : DB} (h : insertItemsLoop saleId items db = some db2) :
    (∀ r ∈ db2.stock, ∃ x ∈ db.stock, r.id = x.id ∧
      r.product_id = x.product_id ∧ r.quantity ≤ x.quantity) ∧
    ((∀ r ∈ db.stock, 0 ≤ r.quantity) → ∀ r ∈ db2.stock, 0 ≤ r.quantity) := by
  induction items generalizing db with
  | nil =>
      rw [insertItemsLoop] at h
      cases h
      exact ⟨fun r hr => ⟨r, hr, rfl, rfl, le_refl _⟩, fun h0 => h0⟩
  | cons it rest ih =>
      rw [insertItemsLoop] at h
      split at h
      · simp at h
      next st hadj =>
        split at h
        next hq =>
          obtain ⟨hmono, hnn⟩ := ih h
          refine ⟨fun r hr => ?_, fun h0 => hnn (stockAdjust_nonneg hadj h0)⟩
          obtain ⟨x, hx, hxe⟩ := hmono r hr
          obtain ⟨y, hy, hye⟩ := stockAdjust_mono hadj (by omega) x hx
          exact ⟨y, hy, by omega, by rw [hxe.2.1, hye.2.1], by omega⟩
        next => simp at h

theorem createSale_ok_spec {inp : CreateSaleIn} {today : Nat} {db db1 : DB}
    (h : createSale inp today db = Except.ok db1) :
    db1.products = db.products ∧ db1.expired = db.expired ∧
    db1.payments = db.payments ∧
    db1.sales = db.sales ++ [newSaleOf inp today db] ∧
    db1.sale_items = db.sale_items ++ newItemsOf inp db ∧
    db1.next_sale_id = db.next_sale_id + 1 ∧
    db1.next_product_id = db.next_product_id ∧
    db1.next_stock_id = db.next_stock_id := by
  rw [createSale] at h
  split at h
  · simp at h
  split at h
  case isFalse => simp at h
  case isTrue hck =>
  split at h
  · simp at h
  next db2 hloop =>
  have hs := insertItemsLoop_spec hloop
  simp only at hs
  have hgoal : db2.products = db.products ∧ db2.expired = db.expired ∧
      db2.payments = db.payments ∧
      db2.sales = db.sales ++ [newSaleOf inp today db] ∧
      db2.sale_items = db.sale_items ++ newItemsOf inp db ∧
      db2.next_sale_id = db.next_sale_id + 1 ∧
      db2.next_product_id = db.next_product_id ∧
      db2.next_stock_id = db.next_stock_id := by
    refine ⟨hs.1, hs.2.1, hs.2.2.2.2.1, hs.2.2.1, ?_,
      hs.2.2.2.2.2.2.2.1, hs.2.2.2.2.2.1, hs.2.2.2.2.2.2.1⟩
    rw [hs.2.2.2.2.2.2.2.2.2, newItemsOf]
  split at h
  case isTrue =>
    split at h
    · cases h; exact hgoal
    next cname =>
      split at h
      · cases h; simpa using hgoal
      next b hf =>
        split at h
        · simp at h
        next db3 hadj =>
          cases h
          obtain ⟨hdb3, -⟩ := borrowerAdjust_some hadj
          subst hdb3
          simpa using hgoal
  case isFalse => cases h; exact hgoal

theorem createSale_ok_borrowers {inp : CreateSaleIn} {today : Nat}
    {db db1 : DB} (h : createSale inp today db = Except.ok db1) :
    (db1.borrowers = db.borrowers ∧
      db1.next_borrower_id = db.next_borrower_id ∧
      (borrowOf inp ≤ 0 ∨ inp.customer_name = none)) ∨
    ∃ cname, inp.customer_name = some cname ∧ 0 < borrowOf inp ∧
      ((db.borrowers.find? (fun b => decide (b.name = cname)) = none ∧
        db1.borrowers = db.borrowers ++
          [⟨db.next_borrower_id, cname, borrowOf inp⟩] ∧
        db1.next_borrower_id = db.next_borrower_id + 1) ∨
       ∃ b, db.borrowers.find? (fun x => decide (x.name = cname)) = some b ∧
        db1.borrowers = db.borrowers.map (fun x =>
          if x.id = b.id then
            { x with outstanding_amount := x.outstanding_amount + borrowOf inp }
          else x) ∧
        db1.next_borrower_id = db.next_borrower_id) := by
  rw [createSale] at h
  split at h
  · simp at h
  split at h
  case isFalse => simp at h
  case isTrue =>
  split at h
  · simp at h
  next db2 hloop =>
  have hs := insertItemsLoop_spec hloop
  simp only at hs
  have hbw : db2.borrowers = db.borrowers := hs.2.2.2.1
  have hnb : db2.next_borrower_id = db.next_borrower_id := hs.2.2.2.2.2.2.2.2.1
  split at h
  case isTrue hpos =>
    split at h
    next hcn => cases h; exact Or.inl ⟨hbw, hnb, Or.inr hcn⟩
    next cname hcn =>
      split at h
      next hf =>
        cases h
        exact Or.inr ⟨cname, hcn, hpos, Or.inl ⟨by rw [← hbw]; exact hf,
          by simp [hbw, hnb], by simp [hnb]⟩⟩
      next b hf =>
        split at h
        · simp at h
        next db3 hadj =>
          cases h
          obtain ⟨hdb3, -⟩ := borrowerAdjust_some hadj
          subst hdb3
          exact Or.inr ⟨cname, hcn, hpos, Or.inr ⟨b, by rw [← hbw]; exact hf,
            by simp [hbw], by simp [hnb]⟩⟩
  case isFalse hpos =>
    cases h
    exact Or.inl ⟨hbw, hnb, Or.inl (by omega)⟩

theorem restoreLoop_spec {items : List SaleItem} {db db2 : DB}
    (h : restoreLoop items db = some db2) :
    db2.products = db.products ∧ db2.expired = db.expired ∧
    db2.sales = db.sales ∧ db2.sale_items = db.sale_items ∧
    db2.borrowers = db.borrowers ∧ db2.payments = db.payments ∧
    db2.next_product_id = db.next_product_id ∧
    db2.next_stock_id = db.next_stock_id ∧
    db2.next_sale_id = db.next_sale_id ∧
    db2.next_borrower_id = db.next_borrower_id := by
  induction items generalizing db with
  | nil => rw [restoreLoop] at h; cases h; simp
  | cons it rest ih =>
      rw [restoreLoop] at h
      split at h
      · simp at h
      next st hadj =>
        have := ih h
        simpa using this

theorem restoreLoop_stock {items : List SaleItem} {db db2 : DB}
    (h : restoreLoop items db = some db2) :
    db2.stock = db.stock.map fun r =>
      { r with quantity := r.quantity + qtySumFor r.product_id items } := by
  induction items generalizing db with
  | nil =>
      rw [restoreLoop] at h
      cases h
      simp [qtySumFor]
  | cons it rest ih =>
      rw [restoreLoop] at h
      split at h
      · simp at h
      next st hadj =>
        have hrec := ih h
        obtain ⟨rfl, -⟩ := stockAdjust_some hadj
        simp only at hrec
        rw [hrec, List.map_map]
        refine List.map_congr_left fun r _ => ?_
        by_cases hp : r.product_id = it.product_id
        · have hq : qtySumFor it.product_id (it :: rest) =
              it.quantity + qtySumFor it.product_id rest := by
            simp [qtySumFor]
          simp [Function.comp, hp, hq, add_assoc]
        · have hq : qtySumFor r.product_id (it :: rest) =
              qtySumFor r.product_id rest := by
            have hne : ¬ it.product_id = r.product_id := fun he => hp he.symm
            simp [qtySumFor, hne]
          simp [Function.comp, hp, hq]

theorem restoreLoop_total {items : List SaleItem} {db : DB}
    (h0 : ∀ r ∈ db.stock, 0 ≤ r.quantity)
    (hq : ∀ it ∈ items, 0 ≤ it.quantity) :
    ∃ db2, restoreLoop items db = some db2 := by
  induction items generalizing db with
  | nil => exact ⟨db, rfl⟩
  | cons it rest ih =>
      have hadj : stockAdjust it.product_id it.quantity db.stock =
          some (db.stock.map fun r =>
            if r.product_id = it.product_id then
              { r with quantity := r.quantity + it.quantity } else r) := by
        rw [stockAdjust, if_pos]
        intro r hr _
        have := h0 r hr
        have := hq it (by simp)
        omega
      obtain ⟨db2, hdb2⟩ := @ih
        { db with stock := db.stock.map fun r =>
            if r.product_id = it.product_id then
              { r with quantity := r.quantity + it.quantity } else r }
        (by
          intro r hr
          obtain ⟨x, hx, rfl⟩ := List.mem_map.mp hr
          have := h0 x hx
          have := hq it (by simp)
          by_cases hp : x.product_id = it.product_id <;> simp [hp] <;> omega)
        (fun x hx => hq x (by simp [hx]))
      exact ⟨db2, by rw [restoreLoop, hadj]; exact hdb2⟩

theorem editInsertLoop_spec {sid : Nat} {items : List SaleItemIn}
    {db db2 : DB} (h : editInsertLoop sid items db = Except.ok db2) :
    db2.products = db.products ∧ db2.expired = db.expired ∧
    db2.sales = db.sales ∧ db2.borrowers = db.borrowers ∧
    db2.payments = db.payments ∧
    db2.next_product_id = db.next_product_id ∧
    db2.next_stock_id = db.next_stock_id ∧
    db2.next_sale_id = db.next_sale_id ∧
    db2.next_borrower_id = db.next_borrower_id ∧
    ∃ L, db2.sale_items = db.sale_items ++ L ∧
      ∀ it2 ∈ L, it2.sale_id = sid ∧ 0 < it2.quantity ∧
        it2.line_total = it2.price * it2.quantity ∧ 0 ≤ it2.line_total ∧
        ∃ p, db.products.find? (fun pp => decide (pp.id = it2.product_id)) =
            some p ∧ it2.price = p.price := by
  induction items generalizing db with
  | nil =>
      rw [editInsertLoop] at h
      cases h
      exact ⟨rfl, rfl, rfl, rfl, rfl, rfl, rfl, rfl, rfl, [], by simp,
        fun it2 h2 => absurd h2 (List.not_mem_nil it2)⟩
  | cons it rest ih =>
      rw [editInsertLoop] at h
      split at h
      next hq => exact ih h
      next hq =>
        split at h
        · simp at h
        next p hp =>
          split at h
          · simp at h
          next st hadj =>
            split at h
            next hlt =>
              have := ih h
              simp only at this
              obtain ⟨L, hLeq, hLprops⟩ := this.2.2.2.2.2.2.2.2.2
              refine ⟨this.1, this.2.1, this.2.2.1, this.2.2.2.1,
                this.2.2.2.2.1, this.2.2.2.2.2.1, this.2.2.2.2.2.2.1,
                this.2.2.2.2.2.2.2.1, this.2.2.2.2.2.2.2.2.1,
                ⟨sid, it.product_id, p.price, it.quantity,
                  p.price * it.quantity⟩ :: L, ?_, ?_⟩
              · rw [hLeq]
                simp
              · intro it2 h2
                rcases List.mem_cons.mp h2 with rfl | hmem
                · exact ⟨rfl, by show 0 < it.quantity; omega, rfl,
                    by show 0 ≤ p.price * it.quantity; omega, ⟨p, hp, rfl⟩⟩
                · exact hLprops it2 hmem
            next => simp at h

theorem recomputeSaleTotals_some {sid : Nat} {db db2 : DB} {t bo : Int}
    (h : recomputeSaleTotals sid db = some (db2, t, bo)) :
    ∃ sale, db.sales.find? (fun s => decide (s.id = sid)) = some sale ∧
      t = saleItemsTotal sid db ∧ 0 ≤ t ∧
      bo = clampedBorrow sale.payment_type t sale.paid_amount ∧
      db2 = { db with sales := db.sales.map fun s =>
        if s.id = sid then
          { s with total_amount := t, borrow_amount := bo } else s } := by
  rw [recomputeSaleTotals] at h
  split at h
  · simp at h
  next sale hfind =>
    split at h
    next hnn =>
      cases h
      exact ⟨sale, hfind, rfl, hnn, rfl, rfl⟩
    next => simp at h

theorem maybeSync_fields (name : Option String) (db : DB) :
    (maybeSync name db).products = db.products ∧
    (maybeSync name db).stock = db.stock ∧
    (maybeSync name db).expired = db.expired ∧
    (maybeSync name db).sales = db.sales ∧
    (maybeSync name db).sale_items = db.sale_items ∧
    (maybeSync name db).payments = db.payments ∧
    (maybeSync name db).next_product_id = db.next_product_id ∧
    (maybeSync name db).next_stock_id = db.next_stock_id ∧
    (maybeSync name db).next_sale_id = db.next_sale_id ∧
    (maybeSync name db).next_borrower_id = db.next_borrower_id := by
  cases name with
  | none => simp [maybeSync]
  | some c => simpa [maybeSync] using syncBorrowerOutstanding_fields c db

theorem syncOldIfChanged_fields (oldName newName : Option String) (db : DB) :
    (syncOldIfChanged oldName newName db).products = db.products ∧
    (syncOldIfChanged oldName newName db).stock = db.stock ∧
    (syncOldIfChanged oldName newName db).expired = db.expired ∧
    (syncOldIfChanged oldName newName db).sales = db.sales ∧
    (syncOldIfChanged oldName newName db).sale_items = db.sale_items ∧
    (syncOldIfChanged oldName newName db).payments = db.payments ∧
    (syncOldIfChanged oldName newName db).next_product_id = db.next_product_id ∧
    (syncOldIfChanged oldName newName db).next_stock_id = db.next_stock_id ∧
    (syncOldIfChanged oldName newName db).next_sale_id = db.next_sale_id ∧
    (syncOldIfChanged oldName newName db).next_borrower_id = db.next_borrower_id := by
  cases oldName with
  | none => simp [syncOldIfChanged]
  | some o =>
      rw [syncOldIfChanged]
      split
      · exact syncBorrowerOutstanding_fields o db
      · simp

theorem editSale_ok_destruct {inp : EditSaleIn} {db db1 : DB}
    (h : editSale inp db = Except.ok db1) :
    inp.sale_id ≠ 0 ∧ 0 ≤ inp.paid_amount ∧
    ∃ oldSale dbA dbC dbE total borrow,
      db.sales.find? (fun s => decide (s.id = inp.sale_id)) = some oldSale ∧
      restoreLoop (itemsOf inp.sale_id db) db = some dbA ∧
      editInsertLoop inp.sale_id inp.items
        (dropSaleItems inp.sale_id dbA) = Except.ok dbC ∧
      recomputeSaleTotals inp.sale_id (editHeader inp dbC) =
        some (dbE, total, borrow) ∧
      db1 = maybeSync inp.customer_name
        (syncOldIfChanged oldSale.customer_name inp.customer_name dbE) := by
  rw [editSale] at h
  split at h
  · simp at h
  next hz =>
    split at h
    · simp at h
    next oldSale hfind =>
      split at h
      · simp at h
      next dbA hres =>
        split at h
        · simp at h
        next dbC hloop =>
          split at h
          next hpd =>
            split at h
            · simp at h
            next dbE total borrow hrec =>
              cases h
              exact ⟨hz, hpd, oldSale, dbA, dbC, dbE, total, borrow,
                hfind, hres, hloop, hrec, rfl⟩
          next => simp at h

theorem deleteSale_ok_destruct {sid : Nat} {db db1 : DB}
    (h : deleteSale sid db = Except.ok db1) :
    sid ≠ 0 ∧
    ∃ sale dbA,
      db.sales.find? (fun s => decide (s.id = sid)) = some sale ∧
      restoreLoop (itemsOf sid db) db = some dbA ∧
      db1 = maybeSync sale.customer_name (dropSale sid dbA) := by
  rw [deleteSale] at h
  split at h
  · simp at h
  next hz =>
    split at h
    · simp at h
    next sale hfind =>
      split at h
      · simp at h
      next dbA hres =>
        cases h
        exact ⟨hz, sale, dbA, hfind, hres, rfl⟩

theorem recordBorrowerPayment_ok_destruct {bid : Nat} {amount : Int}
    {db db1 : DB} (h : recordBorrowerPayment bid amount db = Except.ok db1) :
    bid ≠ 0 ∧ amount ≠ 0 ∧ 0 ≤ amount ∧
    ∃ b db2 db3,
      db.borrowers.find? (fun x => decide (x.id = bid)) = some b ∧
      borrowerAdjust bid (-amount)
        { db with payments := db.payments ++ [⟨bid, amount⟩] } = some db2 ∧
      fifoLoop amount (openSalesOf b.name db2) db2 = some db3 ∧
      db1 = syncBorrowerOutstanding b.name db3 := by
  rw [recordBorrowerPayment] at h
  split at h
  · simp at h
  next hnz =>
    split at h
    · simp at h
    next b hfind =>
      split at h
      next hpos =>
        split at h
        · simp at h
        next db2 hadj =>
          split at h
          · simp at h
          next db3 hfifo =>
            cases h
            exact ⟨fun hz => hnz (Or.inl hz), fun hz => hnz (Or.inr hz),
              hpos, b, db2, db3, hfind, hadj, hfifo, rfl⟩
      next => simp at h

theorem clampedBorrow_eq_max (pt : PayType) (t p : Int) :
    clampedBorrow pt t p =
      if pt = PayType.BORROW then max 0 (t - p) else 0 := by
  rw [clampedBorrow]
  split
  · split <;> omega
  · rfl

theorem editSale_ok_salesChar {inp : EditSaleIn} {db db1 : DB}
    (h : editSale inp db = Except.ok db1) :
    ∀ s ∈ db1.sales, s.id = inp.sale_id →
      s.payment_type = inp.payment_type ∧ s.paid_amount = inp.paid_amount ∧
      s.borrow_amount =
        clampedBorrow inp.payment_type s.total_amount inp.paid_amount := by
  obtain ⟨-, -, oldSale, dbA, dbC, dbE, total, borrow, -, -, -, hrec, rfl⟩ :=
    editSale_ok_destruct h
  obtain ⟨sale, hfind, htot, hnn, hbo, hdbE⟩ := recomputeSaleTotals_some hrec
  intro s hs hid
  rw [(maybeSync_fields _ _).2.2.2.1, (syncOldIfChanged_fields _ _ _).2.2.2.1,
    hdbE] at hs
  simp only [editHeader, List.map_map] at hs
  obtain ⟨x, hx, rfl⟩ := List.mem_map.mp hs
  have hsale : sale.payment_type = inp.payment_type ∧
      sale.paid_amount = inp.paid_amount := by
    have hpa := List.find?_some hfind
    have hpid : sale.id = inp.sale_id := by simpa using hpa
    have hmem := List.mem_of_find?_eq_some hfind
    simp only [editHeader] at hmem
    obtain ⟨x0, hx0, rfl⟩ := List.mem_map.mp hmem
    by_cases hx0id : x0.id = inp.sale_id
    · simp [hx0id]
    · rw [if_neg hx0id] at hpid
      exact absurd hpid hx0id
  by_cases hxid : x.id = inp.sale_id
  · simp [Function.comp, hxid, hbo, hsale.1, hsale.2]
  · exfalso
    simp only [Function.comp, if_neg hxid] at hid
    exact hxid hid

/-- C3 counterexample: a BORROW sale created with paid_amount 15 against a
caller total of 10 commits with borrow_amount -5, not max(0, total-paid)=0. -/
theorem c3_counterexample :
    ¬ ∀ s ∈ (runOps [Op.create ⟨some "Amit", PayType.BORROW, [⟨1, 10, 1⟩],
        10, 0, 15⟩ 10] dbW).sales,
      s.payment_type = PayType.BORROW →
        s.borrow_amount = max 0 (s.total_amount - s.paid_amount) := by
  decide

/-- C3 (amended): after createSale the stored sale's borrow_amount is the
unclamped total_amount - paid_amount for BORROW sales (so it can be
negative) and 0 otherwise, while after editSale the edited sale's
borrow_amount is the clamped max 0 (total_amount - paid_amount) for BORROW
and 0 otherwise. -/
theorem c3_borrow_amount :
    (∀ inp today (db db1 : DB), createSale inp today db = Except.ok db1 →
      ∃ s ∈ db1.sales, s.id = db.next_sale_id ∧
        s.payment_type = inp.payment_type ∧
        s.total_amount = inp.total_amount ∧
        s.paid_amount = inp.paid_amount ∧
        s.borrow_amount =
          (if inp.payment_type = PayType.BORROW then
            inp.total_amount - inp.paid_amount else 0)) ∧
    ∀ inp (db db1 : DB), editSale inp db = Except.ok db1 →
      ∀ s ∈ db1.sales, s.id = inp.sale_id →
        s.payment_type = inp.payment_type ∧
        s.borrow_amount =
          (if inp.payment_type = PayType.BORROW then
            max 0 (s.total_amount - s.paid_amount) else 0) := by
  constructor
  · intro inp today db db1 h
    obtain ⟨-, -, -, hsales, -⟩ := createSale_ok_spec h
    refine ⟨newSaleOf inp today db, by simp [hsales], rfl, rfl, rfl, rfl, ?_⟩
    rw [newSaleOf, borrowOf]
  · intro inp db db1 h s hs hid
    obtain ⟨hpt, hpaid, hbo⟩ := editSale_ok_salesChar h s hs hid
    exact ⟨hpt, by rw [hbo, clampedBorrow_eq_max, hpaid]⟩

/-- C3 witness: the amended createSale branch at the concrete overpaid
BORROW sale on `dbW`, and the amended editSale branch at a concrete
overpaid BORROW edit on `dbScenC`. -/
theorem c3_borrow_amount_witness :
    (∃ s ∈ (applyOp (Op.create ⟨some "Amit", PayType.BORROW, [⟨1, 10, 1⟩],
        10, 0, 15⟩ 10) dbW).sales, s.id = dbW.next_sale_id ∧
      s.payment_type = PayType.BORROW ∧
      s.total_amount = 10 ∧ s.paid_amount = 15 ∧
      s.borrow_amount = (if PayType.BORROW = PayType.BORROW then
        (10 : Int) - 15 else 0)) ∧
    ∀ s ∈ (applyOp (Op.edit ⟨1, some "Amit", PayType.BORROW, 0, 30,
        [⟨1, 99, 2⟩]⟩) dbScenC).sales, s.id = 1 →
      s.payment_type = PayType.BORROW ∧
      s.borrow_amount = (if PayType.BORROW = PayType.BORROW then
        max 0 (s.total_amount - s.paid_amount) else 0) := by
  constructor
  · exact c3_borrow_amount.1 ⟨some "Amit", PayType.BORROW, [⟨1, 10, 1⟩],
      10, 0, 15⟩ 10 dbW _ rfl
  · exact c3_borrow_amount.2 ⟨1, some "Amit", PayType.BORROW, 0, 30,
      [⟨1, 99, 2⟩]⟩ dbScenC _ rfl

/-- C8 counterexample: a negative payment amount passes the JS falsiness
validation and dies on the amount_paid >= 0 check constraint instead of the
InvalidInput validation error, and an overpayment dies on the
outstanding_amount >= 0 check constraint rather than a dedicated
OverPayment kind. -/
theorem c8_counterexample :
    recordBorrowerPayment 1 (-5) dbAmit = Except.error DbError.checkViolation ∧
    recordBorrowerPayment 1 100 dbAmit = Except.error DbError.checkViolation ∧
    DbError.checkViolation ≠ DbError.missingFields := by
  exact ⟨rfl, rfl, by decide⟩

/-- C8 (amended): recordBorrowerPayment fails with the missing-fields
validation error exactly at amount = 0, with a not-found error for an
unknown borrower, and with a check-constraint abort both for negative
amounts and for amounts exceeding the borrower's outstanding; every
failing call leaves the state unchanged. -/
theorem c8_payment_failures :
    (∀ bid (db : DB),
      recordBorrowerPayment bid 0 db = Except.error DbError.missingFields) ∧
    (∀ bid amount (db : DB), bid ≠ 0 → amount ≠ 0 →
      db.borrowers.find? (fun x => decide (x.id = bid)) = none →
      recordBorrowerPayment bid amount db =
        Except.error DbError.borrowerNotFound) ∧
    (∀ bid amount (db : DB) b, bid ≠ 0 → amount < 0 →
      db.borrowers.find? (fun x => decide (x.id = bid)) = some b →
      recordBorrowerPayment bid amount db =
        Except.error DbError.checkViolation) ∧
    (∀ bid amount (db : DB) b, bid ≠ 0 → 0 < amount →
      db.borrowers.find? (fun x => decide (x.id = bid)) = some b →
      b.outstanding_amount < amount →
      recordBorrowerPayment bid amount db =
        Except.error DbError.checkViolation) ∧
    ∀ bid amount (db : DB),
      (¬ ∃ db1, recordBorrowerPayment bid amount db = Except.ok db1) →
      applyOp (Op.payment bid amount) db = db := by
  refine ⟨?_, ?_, ?_, ?_, ?_⟩
  · intro bid db
    rw [recordBorrowerPayment, if_pos (Or.inr rfl)]
  · intro bid amount db hbid hamt hfind
    simp [recordBorrowerPayment, hfind, hbid, hamt]
  · intro bid amount db b hbid hamt hfind
    have hamt0 : amount ≠ 0 := by omega
    have hneg : ¬ (0 : Int) ≤ amount := by omega
    simp [recordBorrowerPayment, hfind, hbid, hamt0, hneg]
  · intro bid amount db b hbid hamt hfind hover
    have hamt0 : amount ≠ 0 := by omega
    have hpos : (0 : Int) ≤ amount := by omega
    have hbmem := List.mem_of_find?_eq_some hfind
    have hbeq : b.id = bid := by simpa using List.find?_some hfind
    have hadj : borrowerAdjust bid (-amount)
        { db with payments := db.payments ++ [⟨bid, amount⟩] } = none := by
      rw [borrowerAdjust, if_neg]
      intro hall
      have := hall b hbmem hbeq
      omega
    simp [recordBorrowerPayment, hfind, hbid, hamt0, hpos, hadj]
  · intro bid amount db hne
    rw [applyOp]
    split
    next d hd => exact absurd ⟨d, hd⟩ hne
    next => rfl

/-- C8 witness: the amended failure modes at concrete inputs on `dbAmit`
(borrower 1 named Amit with outstanding 10). -/
theorem c8_payment_failures_witness :
    recordBorrowerPayment 1 0 dbAmit = Except.error DbError.missingFields ∧
    recordBorrowerPayment 2 5 dbAmit = Except.error DbError.borrowerNotFound ∧
    recordBorrowerPayment 1 11 dbAmit = Except.error DbError.checkViolation ∧
    applyOp (Op.payment 1 11) dbAmit = dbAmit := by
  refine ⟨c8_payment_failures.1 1 dbAmit,
    c8_payment_failures.2.1 2 5 dbAmit (by decide) (by decide) rfl,
    c8_payment_failures.2.2.2.1 1 11 dbAmit ⟨1, "Amit", 10⟩ (by decide)
      (by decide) rfl (by decide),
    c8_payment_failures.2.2.2.2 1 11 dbAmit ?_⟩
  rintro ⟨db1, hdb1⟩
  rw [c8_payment_failures.2.2.2.1 1 11 dbAmit ⟨1, "Amit", 10⟩ (by decide)
    (by decide) rfl (by decide)] at hdb1
  exact absurd hdb1 (by simp)

/-- C9 counterexample: addStock accepts an expiry date in the past (0 is
before every positive current date) and accepts a negative quantity against
sufficient existing stock, decrementing it; the claim requires both to fail
with InvalidInput. -/
theorem c9_counterexample :
    addStock "W" 10 0 50 dbW = Except.ok
      { dbW with
        products := dbW.products ++ [⟨2, "W", 10, 0⟩],
        stock := dbW.stock ++ [⟨2, 2, 50⟩],
        next_product_id := 3, next_stock_id := 3 } ∧
    addStock "Widget" 10 100 (-3) dbW = Except.ok
      { dbW with stock := [⟨1, 1, 47⟩] } := by
  exact ⟨rfl, rfl⟩

/-- C9 (amended): addStock fails with the missing-fields validation error
exactly when a field is JS-falsy — in particular at quantity = 0 — and any
failing call leaves the state unchanged; a negative quantity is rejected
only by the stock.quantity >= 0 check, in particular always when the
product triple is new; the expiry date is never validated. -/
theorem c9_addstock_failures :
    (∀ n p e (db : DB),
      addStock n p e 0 db = Except.error DbError.missingFields) ∧
    (∀ n p e q (db : DB),
      (¬ ∃ db1, addStock n p e q db = Except.ok db1) →
      applyOp (Op.addstock n p e q) db = db) ∧
    ∀ n p e q (db : DB), q < 0 → n ≠ "" → p ≠ 0 →
      db.products.find? (fun pp => decide (pp.name = n) &&
        decide (pp.price = p) && decide (pp.expiry_date = e)) = none →
      (∀ r ∈ db.stock, r.product_id ≠ db.next_product_id) →
      addStock n p e q db = Except.error DbError.checkViolation := by
  refine ⟨?_, ?_, ?_⟩
  · intro n p e db
    rw [addStock, if_pos (Or.inr (Or.inr rfl))]
  · intro n p e q db hne
    rw [applyOp]
    split
    next d hd => exact absurd ⟨d, hd⟩ hne
    next => rfl
  · intro n p e q db hq hn hp hfind hfresh
    have hq0 : q ≠ 0 := by omega
    have hneg : ¬ (0 : Int) ≤ q := by omega
    have hfil : db.stock.filter
        (fun r => decide (r.product_id = db.next_product_id)) = [] := by
      rw [List.filter_eq_nil_iff]
      intro r hr
      simpa using hfresh r hr
    simp [addStock, hfind, hn, hp, hq0, addStockQty, hfil, hneg]

theorem filter_remove_head {l : List StockRow} {p : StockRow → Bool}
    {r : StockRow} {rest : List StockRow}
    (hnd : (l.map (·.id)).Nodup) (hf : l.filter p = r :: rest) :
    (l.filter fun x => decide (x.id ≠ r.id)).filter p = rest := by
  induction l with
  | nil => simp at hf
  | cons a l ih =>
      rw [List.map_cons, List.nodup_cons] at hnd
      by_cases pa : p a = true
      · rw [List.filter_cons_of_pos pa] at hf
        obtain ⟨rfl, hrest⟩ : a = r ∧ l.filter p = rest := by
          constructor
          · exact (List.cons_eq_cons.mp hf).1
          · exact (List.cons_eq_cons.mp hf).2
        have hl : l.filter (fun x => decide (x.id ≠ a.id)) = l := by
          rw [List.filter_eq_self]
          intro x hx
          have : x.id ≠ a.id := by
            intro he
            exact hnd.1 (by rw [← he]; exact List.mem_map_of_mem _ hx)
          simpa using this
        rw [List.filter_cons_of_neg (by simp), hl, hrest]
      · rw [List.filter_cons_of_neg pa] at hf
        have hr : r ∈ l := by
          have : r ∈ l.filter p := by rw [hf]; exact List.mem_cons_self r rest
          exact List.mem_of_mem_filter this
        have haid : a.id ≠ r.id := by
          intro he
          exact hnd.1 (by rw [he]; exact List.mem_map_of_mem _ hr)
        rw [List.filter_cons_of_pos (by simpa using haid),
          List.filter_cons_of_neg pa]
        exact ih hnd.2 hf

theorem sweepLoop_idem {asOf : Nat} :
    ∀ rows (db : DB), expiredSelect asOf db = rows →
      (db.stock.map (·.id)).Nodup →
      moveExpiredStock asOf (sweepLoop asOf rows db) = sweepLoop asOf rows db := by
  intro rows
  induction rows with
  | nil =>
      intro db hsel _
      rw [sweepLoop, moveExpiredStock, hsel, sweepLoop]
  | cons r rest ih =>
      intro db hsel hnd
      rw [sweepLoop]
      by_cases hq : 0 < r.quantity
      · rw [if_pos hq]
        by_cases hex : hasExpired db r.product_id asOf = true
        · rw [if_pos hex, moveExpiredStock, hsel, sweepLoop, if_pos hq, if_pos hex]
        · rw [if_neg hex]
          apply ih
          · rw [expiredSelect]
            exact filter_remove_head hnd (by rw [← hsel, expiredSelect])
          · exact List.Nodup.sublist ((List.filter_sublist _).map _) hnd
      · rw [if_neg hq]
        apply ih
        · rw [expiredSelect]
          exact filter_remove_head hnd (by rw [← hsel, expiredSelect])
        · exact List.Nodup.sublist ((List.filter_sublist _).map _) hnd

/-- C6: for every starting state whose stock primary keys are distinct (the
schema's PRIMARY KEY) and every as-of date, running the expiry sweep twice
leaves exactly the state of running it once — including when a pre-existing
expired_stock row makes a run stop on the UNIQUE (product_id, expired_date)
violation. -/
theorem c6_sweep_idempotent (asOf : Nat) (db : DB)
    (hnd : (db.stock.map (·.id)).Nodup) :
    moveExpiredStock asOf (moveExpiredStock asOf db) = moveExpiredStock asOf db :=
  sweepLoop_idem (expiredSelect asOf db) db rfl hnd

/-- C6 witness: the sweep at date 10 on the scenario F state (stock of 3
on a product expired at date 5) is idempotent. -/
theorem c6_sweep_idempotent_witness :
    moveExpiredStock 10 (moveExpiredStock 10
      ⟨[⟨1, "Widget", 10, 5⟩], [⟨1, 1, 3⟩], [], [], [], [], [], 2, 2, 1, 1⟩) =
    moveExpiredStock 10
      ⟨[⟨1, "Widget", 10, 5⟩], [⟨1, 1, 3⟩], [], [], [], [], [], 2, 2, 1, 1⟩ :=
  c6_sweep_idempotent 10 _ (by decide)

theorem maybeSync_borrowers (name : Option String) (db : DB) :
    (maybeSync name db).borrowers =
      syncedBorrowers name db.sales db.borrowers := by
  cases name with
  | none => simp [maybeSync, syncedBorrowers]
  | some c =>
      rw [maybeSync, syncedBorrowers, syncBorrowerOutstanding]
      cases hf : db.borrowers.find? (fun b => decide (b.name = c)) with
      | none => rfl
      | some b0 =>
          simp only
          refine List.map_congr_left fun x _ => ?_
          by_cases hx : x.id = b0.id
          · have : (if sumBorrow c db.sales ≤ 0 then 0 else sumBorrow c db.sales) =
                max 0 (sumBorrow c db.sales) := by
              split <;> omega
            simp [hx, this]
          · simp [hx]

/-- C7: deleteSale on an existing sale (with the schema-guaranteed
nonnegative stock and positive item quantities) succeeds, adds each of the
sale's item quantities back onto the matching stock rows, removes the
sale's items and the sale row, re-syncs the named borrower against the
remaining sales, and touches nothing else. -/
theorem c7_delete_sale {sid : Nat} {db : DB} (sale : Sale)
    (hz : sid ≠ 0)
    (hfind : db.sales.find? (fun s => decide (s.id = sid)) = some sale)
    (hnn : ∀ r ∈ db.stock, 0 ≤ r.quantity)
    (hq : ∀ it ∈ itemsOf sid db, 0 ≤ it.quantity) :
    ∃ db1, deleteSale sid db = Except.ok db1 ∧
      db1.stock = db.stock.map (fun r =>
        { r with quantity := r.quantity + qtySumFor r.product_id (itemsOf sid db) }) ∧
      db1.sale_items = db.sale_items.filter (fun it => decide (it.sale_id ≠ sid)) ∧
      db1.sales = db.sales.filter (fun s => decide (s.id ≠ sid)) ∧
      db1.borrowers = syncedBorrowers sale.customer_name
        (db.sales.filter (fun s => decide (s.id ≠ sid))) db.borrowers ∧
      db1.products = db.products ∧ db1.expired = db.expired ∧
      db1.payments = db.payments := by
  obtain ⟨dbA, hres⟩ := restoreLoop_total hnn hq
  have hspec := restoreLoop_spec hres
  have hstock := restoreLoop_stock hres
  refine ⟨maybeSync sale.customer_name (dropSale sid dbA), ?_, ?_, ?_, ?_, ?_, ?_, ?_, ?_⟩
  · rw [deleteSale, if_neg hz, hfind, hres]
  · rw [(maybeSync_fields _ _).2.1, dropSale]
    simpa using hstock
  · rw [(maybeSync_fields _ _).2.2.2.2.1, dropSale]
    simp [hspec.2.2.2.1]
  · rw [(maybeSync_fields _ _).2.2.2.1, dropSale]
    simp [hspec.2.2.1]
  · rw [maybeSync_borrowers, dropSale]
    simp only
    rw [hspec.2.2.1, hspec.2.2.2.2.1]
  · rw [(maybeSync_fields _ _).1, dropSale]
    simp [hspec.1]
  · rw [(maybeSync_fields _ _).2.2.1, dropSale]
    simp [hspec.2.1]
  · rw [(maybeSync_fields _ _).2.2.2.2.2.1, dropSale]
    simp [hspec.2.2.2.2.2.1]

/-- C7 witness: deleting the scenario B sale returns the Widget stock row
to its pre-sale quantity of 50. -/
theorem c7_delete_sale_witness :
    ∃ db1, deleteSale 1 dbScenB = Except.ok db1 ∧
      db1.stock = [⟨1, 1, 50⟩] ∧ db1.sales = [] ∧ db1.sale_items = [] := by
  obtain ⟨db1, h1, h2, h3, h4, -⟩ :=
    @c7_delete_sale 1 dbScenB
      ⟨1, 10, none, PayType.CASH, 50, 0, 50, 0⟩ (by decide) rfl
      (by decide) (by decide)
  exact ⟨db1, h1, by rw [h2]; decide, by rw [h4]; decide, by rw [h3]; decide⟩

theorem editInsertLoop_reprice (sid : Nat) (f : SaleItemIn → Int) :
    ∀ (items : List SaleItemIn) (db : DB),
      editInsertLoop sid (items.map (reprice f)) db =
        editInsertLoop sid items db := by
  intro items
  induction items with
  | nil => intro db; rfl
  | cons it rest ih =>
      intro db
      rw [List.map_cons, editInsertLoop, editInsertLoop]
      simp only [reprice]
      by_cases hq : it.quantity ≤ 0
      · rw [if_pos hq, if_pos hq]; exact ih db
      · rw [if_neg hq, if_neg hq]
        cases hfp : db.products.find? (fun p => decide (p.id = it.product_id)) with
        | none => rfl
        | some p =>
            cases hadj : stockAdjust it.product_id (-it.quantity) db.stock with
            | none => rfl
            | some st =>
                simp only []
                by_cases hlt : 0 ≤ p.price * it.quantity
                · rw [if_pos hlt, if_pos hlt]; exact ih _
                · rw [if_neg hlt, if_neg hlt]

/-- C10: the edit-bill route ignores any caller-supplied price inside
items — rewriting every item price leaves the whole operation unchanged —
and each sale item it re-inserts carries the current products-table price
for its product; by contrast, createSale stores exactly the caller-supplied
prices and uses them for line totals. -/
theorem c10_edit_prices :
    (∀ (f : SaleItemIn → Int) (inp : EditSaleIn) (db : DB),
      editSale { inp with items := inp.items.map (reprice f) } db =
        editSale inp db) ∧
    (∀ (inp : EditSaleIn) (db db1 : DB), editSale inp db = Except.ok db1 →
      ∀ it ∈ db1.sale_items, it.sale_id = inp.sale_id →
        0 < it.quantity ∧ it.line_total = it.price * it.quantity ∧
        ∃ p, db.products.find? (fun pp => decide (pp.id = it.product_id)) =
            some p ∧ it.price = p.price) ∧
    ∀ (inp : CreateSaleIn) (today : Nat) (db db1 : DB),
      createSale inp today db = Except.ok db1 →
      db1.sale_items = db.sale_items ++ inp.items.map (fun it =>
        SaleItem.mk db.next_sale_id it.product_id it.price it.quantity
          (it.price * it.quantity)) := by
  refine ⟨?_, ?_, ?_⟩
  · intro f inp db
    have he : editHeader { inp with items := inp.items.map (reprice f) } =
        editHeader inp := rfl
    simp only [editSale, editInsertLoop_reprice, he]
  · intro inp db db1 h it hit hsid
    obtain ⟨-, -, oldSale, dbA, dbC, dbE, total, borrow, -, hres, hloop, hrec, rfl⟩ :=
      editSale_ok_destruct h
    obtain ⟨sale, -, -, -, -, hdbE⟩ := recomputeSaleTotals_some hrec
    have hresf := restoreLoop_spec hres
    have hlf := editInsertLoop_spec hloop
    rw [(maybeSync_fields _ _).2.2.2.2.1,
      (syncOldIfChanged_fields _ _ _).2.2.2.2.1, hdbE] at hit
    simp only [editHeader] at hit
    obtain ⟨L, hLeq, hLprops⟩ := hlf.2.2.2.2.2.2.2.2.2
    rw [hLeq] at hit
    rcases List.mem_append.mp hit with hold | hnew
    · exfalso
      simp only [dropSaleItems] at hold
      have := List.of_mem_filter hold
      simp [hsid] at this
    · obtain ⟨-, hqty, hline, -, p, hp, hprice⟩ := hLprops it hnew
      refine ⟨hqty, hline, p, ?_, hprice⟩
      have : (dropSaleItems inp.sale_id dbA).products = db.products := by
        rw [dropSaleItems]
        simpa using hresf.1
      rw [← this]
      exact hp
  · intro inp today db db1 h
    exact (createSale_ok_spec h).2.2.2.2.1

/-- C10 witness: repricing the request items of a concrete edit on
`dbScenC` changes nothing; the re-inserted item of that edit carries the
products-table price 10; and a concrete createSale on `dbW` stores the
caller price 7. -/
theorem c10_edit_prices_witness :
    editSale ⟨1, some "Amit", PayType.BORROW, 0, 5, [⟨1, 999, 2⟩]⟩ dbScenC =
      editSale ⟨1, some "Amit", PayType.BORROW, 0, 5, [⟨1, 10, 2⟩]⟩ dbScenC ∧
    (∀ it ∈ (applyOp (Op.edit ⟨1, some "Amit", PayType.BORROW, 0, 5,
        [⟨1, 999, 2⟩]⟩) dbScenC).sale_items, it.sale_id = 1 →
      0 < it.quantity ∧ it.line_total = it.price * it.quantity ∧
      ∃ p, dbScenC.products.find? (fun pp => decide (pp.id = it.product_id)) =
          some p ∧ it.price = p.price) ∧
    (applyOp (Op.create ⟨none, PayType.CASH, [⟨1, 7, 5⟩], 35, 0, 35⟩ 11) dbW).sale_items =
      dbW.sale_items ++ [⟨1, 1, 7, 5, 35⟩] := by
  refine ⟨?_, ?_, ?_⟩
  · exact c10_edit_prices.1 (fun _ => 999)
      ⟨1, some "Amit", PayType.BORROW, 0, 5, [⟨1, 10, 2⟩]⟩ dbScenC
  · exact c10_edit_prices.2.1 ⟨1, some "Amit", PayType.BORROW, 0, 5,
      [⟨1, 999, 2⟩]⟩ dbScenC _ rfl
  · exact c10_edit_prices.2.2 ⟨none, PayType.CASH, [⟨1, 7, 5⟩], 35, 0, 35⟩
      11 dbW _ rfl

theorem applyAlloc_nil (sales : List Sale) : applyAlloc [] sales = sales := by
  rw [applyAlloc]
  simp

theorem lookup_eq_none_of {alloc : List (Nat × Int)} {k : Nat}
    (h : ∀ pr ∈ alloc, pr.1 ≠ k) : List.lookup k alloc = none := by
  induction alloc with
  | nil => rfl
  | cons pr rest ih =>
      rw [List.lookup]
      have hk : (k == pr.1) = false := by
        simpa using (h pr (by simp)).symm
      rw [hk]
      exact ih fun q hq => h q (by simp [hq])

theorem specFifoAlloc_keys :
    ∀ (r : Int) (rows : List Sale) (pr : Nat × Int),
      pr ∈ specFifoAlloc r rows → pr.1 ∈ rows.map (·.id) := by
  intro r rows
  induction rows generalizing r with
  | nil => intro pr hpr; simp [specFifoAlloc] at hpr
  | cons s rest ih =>
      intro pr hpr
      rw [specFifoAlloc] at hpr
      split at hpr
      · simp at hpr
      · rcases List.mem_cons.mp hpr with rfl | hmem
        · simp
        · simpa using Or.inr (by simpa using ih _ pr hmem)

theorem applyAlloc_cons {k : Nat} {a : Int} {L : List (Nat × Int)}
    (sales : List Sale) (hL : ∀ pr ∈ L, pr.1 ≠ k) :
    applyAlloc ((k, a) :: L) sales =
      applyAlloc L (sales.map fun s =>
        if s.id = k then
          { s with
            paid_amount := s.paid_amount + a,
            borrow_amount := s.borrow_amount - a }
        else s) := by
  rw [applyAlloc, applyAlloc, List.map_map]
  refine List.map_congr_left fun x _ => ?_
  by_cases hx : x.id = k
  · have hnone : List.lookup k L = none := lookup_eq_none_of hL
    simp [Function.comp, List.lookup, hx, hnone]
  · have hk : (x.id == k) = false := by simpa using hx
    simp only [Function.comp, List.lookup, hk, if_neg hx]

theorem fifoLoop_some_spec :
    ∀ (rows : List Sale) (r : Int) (db db3 : DB),
      fifoLoop r rows db = some db3 → 0 ≤ r →
      (rows.map (·.id)).Nodup →
      db3.sales = applyAlloc (specFifoAlloc r rows) db.sales ∧
      db3.products = db.products ∧ db3.stock = db.stock ∧
      db3.expired = db.expired ∧ db3.sale_items = db.sale_items ∧
      db3.borrowers = db.borrowers ∧ db3.payments = db.payments ∧
      db3.next_product_id = db.next_product_id ∧
      db3.next_stock_id = db.next_stock_id ∧
      db3.next_sale_id = db.next_sale_id ∧
      db3.next_borrower_id = db.next_borrower_id := by
  intro rows
  induction rows with
  | nil =>
      intro r db db3 h hr _
      rw [fifoLoop] at h
      cases h
      simp [specFifoAlloc, applyAlloc_nil]
  | cons s rest ih =>
      intro r db db3 h hr hnd
      rw [List.map_cons, List.nodup_cons] at hnd
      rw [fifoLoop] at h
      split at h
      next hle =>
        cases h
        have hr0 : r = 0 := le_antisymm hle hr
        subst hr0
        simp [specFifoAlloc, applyAlloc_nil]
      next hgt =>
        split at h
        next hck =>
          have hmin : min r s.borrow_amount ≤ r := min_le_left _ _
          have := ih (r - min r s.borrow_amount) _ db3 h (by omega) hnd.2
          have halloc : specFifoAlloc r (s :: rest) =
              (s.id, min r s.borrow_amount) ::
                specFifoAlloc (r - min r s.borrow_amount) rest := by
            rw [specFifoAlloc, if_neg (by omega)]
          rw [halloc, applyAlloc_cons _ (fun pr hpr => by
            intro he
            exact hnd.1 (by rw [← he]; exact specFifoAlloc_keys _ _ pr hpr))]
          simpa using this
        next => simp at h

theorem fifoLoop_total :
    ∀ (rows : List Sale) (r : Int) (db : DB),
      (∀ x ∈ db.sales, 0 ≤ x.paid_amount) →
      (∀ s ∈ rows, 0 < s.borrow_amount) → 0 ≤ r →
      ∃ db3, fifoLoop r rows db = some db3 := by
  intro rows
  induction rows with
  | nil => intro r db _ _ _; exact ⟨db, rfl⟩
  | cons s rest ih =>
      intro r db hpaid hpos hr
      by_cases hle : r ≤ 0
      · exact ⟨db, by rw [fifoLoop, if_pos hle]⟩
      · have hs : 0 < s.borrow_amount := hpos s (by simp)
        have hck : ∀ x ∈ db.sales, x.id = s.id →
            0 ≤ x.paid_amount + min r s.borrow_amount := by
          intro x hx _
          have := hpaid x hx
          have : 0 < min r s.borrow_amount := lt_min (by omega) hs
          omega
        obtain ⟨db3, hdb3⟩ := ih (r - min r s.borrow_amount)
          { db with sales := db.sales.map fun x =>
              if x.id = s.id then
                { x with
                  paid_amount := x.paid_amount + min r s.borrow_amount,
                  borrow_amount := x.borrow_amount - min r s.borrow_amount }
              else x }
          (by
            intro x hx
            obtain ⟨y, hy, rfl⟩ := List.mem_map.mp hx
            have hp := hpaid y hy
            have hm : 0 < min r s.borrow_amount := lt_min (by omega) hs
            by_cases hid : y.id = s.id <;> simp [hid] <;> omega)
          (fun x hx => hpos x (by simp [hx])) (by
            have : min r s.borrow_amount ≤ r := min_le_left _ _
            omega)
        exact ⟨db3, by rw [fifoLoop, if_neg hle, if_pos hck]; exact hdb3⟩

/-- C4: on an existing borrower with a positive amount within the current
outstanding (and schema-consistent primary keys and nonnegative paid
amounts), recordBorrowerPayment succeeds, appends the BorrowerPayment row
with the paid amount, and rewrites the sales table exactly by the
spec-side FIFO allocation over the open BORROW sales in sale_date order:
each allocated sale's paid_amount rises and borrow_amount falls by
applied = min(remaining, borrow_amount), stopping when the remainder hits
0 or the sales run out. -/
theorem c4_fifo_payment {db : DB} {bid : Nat} {amount : Int} {b : Borrower}
    (hbid : bid ≠ 0)
    (hfind : db.borrowers.find? (fun x => decide (x.id = bid)) = some b)
    (hbids : (db.borrowers.map (·.id)).Nodup)
    (hsids : (db.sales.map (·.id)).Nodup)
    (hpaid : ∀ s ∈ db.sales, 0 ≤ s.paid_amount)
    (hamt : 0 < amount) (hle : amount ≤ b.outstanding_amount) :
    ∃ db1, recordBorrowerPayment bid amount db = Except.ok db1 ∧
      db1.payments = db.payments ++ [⟨bid, amount⟩] ∧
      db1.sales =
        applyAlloc (specFifoAlloc amount (openSalesOf b.name db)) db.sales := by
  have hamt0 : amount ≠ 0 := by omega
  have hpos : (0 : Int) ≤ amount := by omega
  have hbmem := List.mem_of_find?_eq_some hfind
  have hbeq : b.id = bid := by simpa using List.find?_some hfind
  set db2 : DB :=
    { db with
      payments := db.payments ++ [⟨bid, amount⟩],
      borrowers := db.borrowers.map fun x =>
        if x.id = bid then
          { x with outstanding_amount := x.outstanding_amount + -amount }
        else x } with hdb2
  have hadj : borrowerAdjust bid (-amount)
      { db with payments := db.payments ++ [⟨bid, amount⟩] } = some db2 := by
    have hcond : ∀ x ∈ db.borrowers, x.id = bid →
        0 ≤ x.outstanding_amount + -amount := by
      intro x hx hxid
      have hxb : x = b :=
        List.inj_on_of_nodup_map hbids hx hbmem (by rw [hxid, hbeq])
      subst hxb
      omega
    rw [borrowerAdjust, if_pos hcond]
  have hrows_pos : ∀ s ∈ openSalesOf b.name db2, 0 < s.borrow_amount := by
    intro s hs
    rw [openSalesOf] at hs
    have hmem := (List.perm_insertionSort _ _).subset hs
    have hb := List.of_mem_filter hmem
    simp only [Bool.and_eq_true, decide_eq_true_eq] at hb
    exact hb.2
  have hrows_nd : ((openSalesOf b.name db2).map (·.id)).Nodup := by
    rw [openSalesOf]
    refine ((List.perm_insertionSort _ _).map _).nodup_iff.mpr ?_
    exact List.Nodup.sublist ((List.filter_sublist _).map _) hsids
  obtain ⟨db3, hfifo⟩ := fifoLoop_total (openSalesOf b.name db2) amount db2
    (by intro x hx; exact hpaid x hx) hrows_pos hpos
  obtain ⟨hsales3, -, -, -, -, -, hpay3, -⟩ :=
    fifoLoop_some_spec _ _ _ _ hfifo hpos hrows_nd
  refine ⟨syncBorrowerOutstanding b.name db3, ?_, ?_, ?_⟩
  · simp [recordBorrowerPayment, hfind, hadj, hfifo, hbid, hamt0, hpos]
  · rw [(syncBorrowerOutstanding_fields _ _).2.2.2.2.2.1, hpay3]
  · rw [(syncBorrowerOutstanding_fields _ _).2.2.2.1, hsales3]
    have : openSalesOf b.name db2 = openSalesOf b.name db := by
      rw [openSalesOf, openSalesOf]
    rw [this]

/-- C4 witness: scenario D — paying 10 for Amit against the single open
BORROW sale of 15 raises its paid_amount to 15, lowers its borrow_amount
to 5, and appends the payment row. -/
theorem c4_fifo_payment_witness :
    ∃ db1, recordBorrowerPayment 1 10 dbScenC = Except.ok db1 ∧
      db1.payments = [⟨1, 10⟩] ∧
      db1.sales = [⟨1, 5, some "Amit", PayType.BORROW, 20, 0, 15, 5⟩] := by
  obtain ⟨db1, h1, h2, h3⟩ := @c4_fifo_payment dbScenC 1 10
    ⟨1, "Amit", 15⟩ (by decide) rfl (by decide)
    (by decide) (by decide) (by decide) (by decide)
  exact ⟨db1, h1, by rw [h2]; rfl, by rw [h3]; decide⟩

theorem sumBorrow_eq (n : String) (sales : List Sale) :
    sumBorrow n sales = (sales.map (contrib n)).sum := by
  induction sales with
  | nil => rfl
  | cons z rest ih =>
      rw [sumBorrow] at ih ⊢
      by_cases hz : z.customer_name = some n
      · rw [List.filter_cons_of_pos (by simpa using hz)]
        simp [contrib, hz, ih]

      · rw [List.filter_cons_of_neg (by simpa using hz)]
        simp [contrib, hz, ih]

theorem sumBorrow_append_singleton (n : String) (sales : List Sale) (s : Sale) :
    sumBorrow n (sales ++ [s]) = sumBorrow n sales + contrib n s := by
  simp [sumBorrow_eq]

theorem contrib_nonneg {n : String} {z : Sale} (h : 0 ≤ z.borrow_amount) :
    0 ≤ contrib n z := by
  rw [contrib]
  split <;> omega

theorem sumBorrow_nonneg {n : String} {sales : List Sale}
    (h : ∀ z ∈ sales, 0 ≤ z.borrow_amount) : 0 ≤ sumBorrow n sales := by
  rw [sumBorrow_eq]
  refine List.sum_nonneg ?_
  intro x hx
  obtain ⟨z, hz, rfl⟩ := List.mem_map.mp hx
  exact contrib_nonneg (h z hz)

theorem sumBorrow_eq_zero_of {n : String} {sales : List Sale}
    (h : ∀ z ∈ sales, z.customer_name = some n → z.borrow_amount = 0) :
    sumBorrow n sales = 0 := by
  rw [sumBorrow_eq]
  refine List.sum_eq_zero ?_
  intro x hx
  obtain ⟨z, hz, rfl⟩ := List.mem_map.mp hx
  rw [contrib]
  split
  next hc => exact h z hz hc
  next => rfl

theorem sumBorrow_map_congr {n : String} {sales : List Sale} {u : Sale → Sale}
    (h : ∀ z ∈ sales, contrib n (u z) = contrib n z) :
    sumBorrow n (sales.map u) = sumBorrow n sales := by
  rw [sumBorrow_eq, sumBorrow_eq, List.map_map]
  congr 1
  exact List.map_congr_left fun z hz => h z hz

theorem sumBorrow_perm (n : String) {l1 l2 : List Sale} (h : l1.Perm l2) :
    sumBorrow n l1 = sumBorrow n l2 := by
  rw [sumBorrow_eq, sumBorrow_eq]
  exact (h.map _).sum_eq

theorem sumBorrow_map_update {n : String} {sales : List Sale} {u : Sale → Sale}
    {z0 : Sale} (hnd : (sales.map (·.id)).Nodup) (hmem : z0 ∈ sales)
    (hu : ∀ z ∈ sales, z ≠ z0 → u z = z) :
    sumBorrow n (sales.map u) =
      sumBorrow n sales - contrib n z0 + contrib n (u z0) := by
  have hrows : sales.Nodup := List.Nodup.of_map _ hnd
  have hperm := List.perm_cons_erase hmem
  have herase : ∀ z ∈ sales.erase z0, u z = z := by
    intro z hz
    have hz2 := (List.Nodup.mem_erase_iff hrows).mp hz
    exact hu z hz2.2 hz2.1
  have h1 : sumBorrow n (sales.map u) =
      contrib n (u z0) + sumBorrow n ((sales.erase z0).map u) := by
    have := sumBorrow_perm n (hperm.map u)
    rw [this, List.map_cons, sumBorrow_eq, List.map_cons, List.sum_cons,
      ← sumBorrow_eq]
  have h2 : sumBorrow n ((sales.erase z0).map u) =
      sumBorrow n (sales.erase z0) := by
    rw [sumBorrow_eq, sumBorrow_eq, List.map_map]
    congr 1
    refine List.map_congr_left fun z hz => ?_
    simp [Function.comp, herase z hz]
  have h3 : sumBorrow n sales =
      contrib n z0 + sumBorrow n (sales.erase z0) := by
    have := sumBorrow_perm n hperm
    rw [this, sumBorrow_eq, List.map_cons, List.sum_cons, ← sumBorrow_eq]
  omega

theorem sumBorrow_filter_remove {n : String} {sales : List Sale} {sid : Nat}
    {z0 : Sale} (hnd : (sales.map (·.id)).Nodup) (hmem : z0 ∈ sales)
    (hz0 : z0.id = sid) :
    sumBorrow n (sales.filter fun z => decide (z.id ≠ sid)) =
      sumBorrow n sales - contrib n z0 := by
  have hrows : sales.Nodup := List.Nodup.of_map _ hnd
  have hperm := List.perm_cons_erase hmem
  have hfp := hperm.filter (fun z => decide (z.id ≠ sid))
  have hzdrop : (z0 :: sales.erase z0).filter (fun z => decide (z.id ≠ sid)) =
      sales.erase z0 := by
    rw [List.filter_cons_of_neg (by simp [hz0])]
    rw [List.filter_eq_self]
    intro z hz
    have hz2 := (List.Nodup.mem_erase_iff hrows).mp hz
    have : z.id ≠ sid := by
      intro he
      exact hz2.1 (List.inj_on_of_nodup_map hnd hz2.2 hmem (by rw [he, hz0]))
    simpa using this
  have h3 : sumBorrow n sales =
      contrib n z0 + sumBorrow n (sales.erase z0) := by
    have := sumBorrow_perm n hperm
    rw [this, sumBorrow_eq, List.map_cons, List.sum_cons, ← sumBorrow_eq]
  rw [sumBorrow_perm n hfp, hzdrop]
  omega

theorem syncBorrowerOutstanding_char {n : String} {db : DB}
    (hids : (db.borrowers.map (·.id)).Nodup)
    (hnames : (db.borrowers.map (·.name)).Nodup) :
    (syncBorrowerOutstanding n db).borrowers = db.borrowers.map fun x =>
      if x.name = n then
        { x with outstanding_amount := max 0 (sumBorrow n db.sales) }
      else x := by
  rw [syncBorrowerOutstanding]
  cases hf : db.borrowers.find? (fun b => decide (b.name = n)) with
  | none =>
      have hno : ∀ x ∈ db.borrowers, x.name ≠ n := by
        intro x hx
        have := List.find?_eq_none.mp hf x hx
        simpa using this
      simp only
      have hmapid : db.borrowers.map (fun x =>
          if x.name = n then
            { x with outstanding_amount := max 0 (sumBorrow n db.sales) }
          else x) = db.borrowers.map id :=
        List.map_congr_left fun x hx => by rw [if_neg (hno x hx)]; rfl
      rw [hmapid, List.map_id]
  | some b0 =>
      have hb0mem := List.mem_of_find?_eq_some hf
      have hb0n : b0.name = n := by simpa using List.find?_some hf
      simp only
      refine List.map_congr_left fun x hx => ?_
      by_cases hid : x.id = b0.id
      · have hxb : x = b0 := List.inj_on_of_nodup_map hids hx hb0mem hid
        subst hxb
        rw [if_pos rfl, if_pos hb0n]
        have : (if sumBorrow n db.sales ≤ 0 then 0 else sumBorrow n db.sales) =
            max 0 (sumBorrow n db.sales) := by
          split <;> omega
        rw [this]
      · rw [if_neg hid, if_neg]
        intro hxn
        exact hid (congrArg (·.id)
          (List.inj_on_of_nodup_map hnames hx hb0mem (by rw [hxn, hb0n])))

theorem mem_of_lookup_eq_some {alloc : List (Nat × Int)} {k : Nat} {a : Int}
    (h : List.lookup k alloc = some a) : (k, a) ∈ alloc := by
  induction alloc with
  | nil => simp [List.lookup] at h
  | cons pr rest ih =>
      cases pr with
      | mk k2 b =>
          rw [List.lookup] at h
          cases hbe : k == k2 with
          | true =>
              rw [hbe] at h
              simp only at h
              cases h
              have : k = k2 := by simpa using hbe
              subst this
              exact List.mem_cons_self _ _
          | false =>
              rw [hbe] at h
              simp only at h
              exact List.mem_cons_of_mem _ (ih h)

theorem specFifoAlloc_bounds :
    ∀ (r : Int) (rows : List Sale), 0 ≤ r →
      (∀ s ∈ rows, 0 < s.borrow_amount) →
      ∀ pr ∈ specFifoAlloc r rows,
        0 ≤ pr.2 ∧ ∃ s ∈ rows, s.id = pr.1 ∧ pr.2 ≤ s.borrow_amount := by
  intro r rows
  induction rows generalizing r with
  | nil => intro _ _ pr hpr; simp [specFifoAlloc] at hpr
  | cons s rest ih =>
      intro hr hpos pr hpr
      rw [specFifoAlloc] at hpr
      split at hpr
      · simp at hpr
      next hne =>
        rcases List.mem_cons.mp hpr with rfl | hmem
        · refine ⟨?_, s, List.mem_cons_self _ _, rfl, min_le_right _ _⟩
          have := hpos s (List.mem_cons_self _ _)
          simp only
          omega
        · have hrec := ih (r - min r s.borrow_amount)
            (by have := hpos s (List.mem_cons_self _ _); omega)
            (fun x hx => hpos x (List.mem_cons_of_mem _ hx)) pr hmem
          obtain ⟨t, ht, hte⟩ := hrec.2
          exact ⟨hrec.1, t, List.mem_cons_of_mem _ ht, hte⟩

theorem maybeSync_keys (name : Option String) (db : DB) :
    (maybeSync name db).borrowers.map (·.id) = db.borrowers.map (·.id) ∧
    (maybeSync name db).borrowers.map (·.name) = db.borrowers.map (·.name) := by
  cases name with
  | none => simp [maybeSync]
  | some c => simpa [maybeSync] using syncBorrowerOutstanding_keys c db

theorem syncOldIfChanged_keys (o c : Option String) (db : DB) :
    (syncOldIfChanged o c db).borrowers.map (·.id) = db.borrowers.map (·.id) ∧
    (syncOldIfChanged o c db).borrowers.map (·.name) = db.borrowers.map (·.name) := by
  cases o with
  | none => simp [syncOldIfChanged]
  | some o2 =>
      rw [syncOldIfChanged]
      split
      · exact syncBorrowerOutstanding_keys o2 db
      · exact ⟨rfl, rfl⟩

theorem mem_map_eq_transfer {α β : Type} {l l2 : List α} {f : α → β}
    (h : l2.map f = l.map f) : ∀ x ∈ l2, ∃ y ∈ l, f x = f y := by
  intro x hx
  have hmem : f x ∈ l2.map f := List.mem_map_of_mem f hx
  rw [h] at hmem
  obtain ⟨y, hy, he⟩ := List.mem_map.mp hmem
  exact ⟨y, hy, he.symm⟩

theorem clampedBorrow_nonneg (pt : PayType) (t p : Int) :
    0 ≤ clampedBorrow pt t p := by
  rw [clampedBorrow]
  split
  · split <;> omega
  · omega

theorem addStockQty_ok {pid : Nat} {q : Int} {db db1 : DB}
    (h : addStockQty pid q db = Except.ok db1) :
    db1.products = db.products ∧ db1.expired = db.expired ∧
    db1.sales = db.sales ∧ db1.sale_items = db.sale_items ∧
    db1.borrowers = db.borrowers ∧ db1.payments = db.payments ∧
    db1.next_product_id = db.next_product_id ∧
    db1.next_sale_id = db.next_sale_id ∧
    db1.next_borrower_id = db.next_borrower_id ∧
    ((∀ r ∈ db.stock, 0 ≤ r.quantity) → ∀ r ∈ db1.stock, 0 ≤ r.quantity) := by
  rw [addStockQty] at h
  split at h
  · split at h
    next hq =>
      cases h
      refine ⟨rfl, rfl, rfl, rfl, rfl, rfl, rfl, rfl, rfl, ?_⟩
      intro h0 r hr
      simp only at hr
      rcases List.mem_append.mp hr with hold | hone
      · exact h0 r hold
      · have heq : r = ⟨db.next_stock_id, pid, q⟩ := by simpa using hone
        subst heq
        exact hq
    next => simp at h
  · split at h
    · simp at h
    next st hadj =>
      cases h
      exact ⟨rfl, rfl, rfl, rfl, rfl, rfl, rfl, rfl, rfl,
        fun h0 => stockAdjust_nonneg hadj h0⟩

theorem addStock_ok_fields {n : String} {p : Int} {e : Nat} {q : Int}
    {db db1 : DB} (h : addStock n p e q db = Except.ok db1) :
    db1.expired = db.expired ∧ db1.sales = db.sales ∧
    db1.sale_items = db.sale_items ∧ db1.borrowers = db.borrowers ∧
    db1.payments = db.payments ∧ db1.next_sale_id = db.next_sale_id ∧
    db1.next_borrower_id = db.next_borrower_id ∧
    ((∀ r ∈ db.stock, 0 ≤ r.quantity) → ∀ r ∈ db1.stock, 0 ≤ r.quantity) := by
  rw [addStock] at h
  split at h
  · simp at h
  split at h
  next pr hpr =>
    have hs := addStockQty_ok h
    exact ⟨hs.2.1, hs.2.2.1, hs.2.2.2.1, hs.2.2.2.2.1, hs.2.2.2.2.2.1,
      hs.2.2.2.2.2.2.2.1, hs.2.2.2.2.2.2.2.2.1, hs.2.2.2.2.2.2.2.2.2⟩
  next hpr =>
    have hs := addStockQty_ok h
    simp only at hs
    exact ⟨hs.2.1, hs.2.2.1, hs.2.2.2.1, hs.2.2.2.2.1, hs.2.2.2.2.2.1,
      hs.2.2.2.2.2.2.2.1, hs.2.2.2.2.2.2.2.2.1, hs.2.2.2.2.2.2.2.2.2⟩

theorem sweepLoop_fields (asOf : Nat) :
    ∀ (rows : List StockRow) (db : DB),
      (sweepLoop asOf rows db).products = db.products ∧
      (sweepLoop asOf rows db).sales = db.sales ∧
      (sweepLoop asOf rows db).sale_items = db.sale_items ∧
      (sweepLoop asOf rows db).borrowers = db.borrowers ∧
      (sweepLoop asOf rows db).payments = db.payments ∧
      (sweepLoop asOf rows db).next_product_id = db.next_product_id ∧
      (sweepLoop asOf rows db).next_stock_id = db.next_stock_id ∧
      (sweepLoop asOf rows db).next_sale_id = db.next_sale_id ∧
      (sweepLoop asOf rows db).next_borrower_id = db.next_borrower_id ∧
      ∀ r ∈ (sweepLoop asOf rows db).stock, r ∈ db.stock := by
  intro rows
  induction rows with
  | nil =>
      intro db
      rw [sweepLoop]
      exact ⟨rfl, rfl, rfl, rfl, rfl, rfl, rfl, rfl, rfl, fun r hr => hr⟩
  | cons r0 rest ih =>
      intro db
      rw [sweepLoop]
      by_cases hq : 0 < r0.quantity
      · rw [if_pos hq]
        by_cases hex : hasExpired db r0.product_id asOf = true
        · rw [if_pos hex]
          exact ⟨rfl, rfl, rfl, rfl, rfl, rfl, rfl, rfl, rfl, fun r hr => hr⟩
        · rw [if_neg hex]
          obtain ⟨h1, h2, h3, h4, h5, h6, h7, h8, h9, h10⟩ :=
            ih { db with
              expired := db.expired ++ [⟨r0.product_id, r0.quantity, asOf⟩],
              stock := db.stock.filter fun x => decide (x.id ≠ r0.id) }
          exact ⟨h1, h2, h3, h4, h5, h6, h7, h8, h9,
            fun r hr => List.mem_of_mem_filter (h10 r hr)⟩
      · rw [if_neg hq]
        obtain ⟨h1, h2, h3, h4, h5, h6, h7, h8, h9, h10⟩ :=
          ih { db with
            stock := db.stock.filter fun x => decide (x.id ≠ r0.id) }
        exact ⟨h1, h2, h3, h4, h5, h6, h7, h8, h9,
          fun r hr => List.mem_of_mem_filter (h10 r hr)⟩

theorem editSale_ok_shape {inp : EditSaleIn} {db db1 : DB}
    (h : editSale inp db = Except.ok db1) :
    ∃ oldSale L dbE,
      db.sales.find? (fun s => decide (s.id = inp.sale_id)) = some oldSale ∧
      (∀ it2 ∈ L, it2.sale_id = inp.sale_id ∧ 0 < it2.quantity ∧
        it2.line_total = it2.price * it2.quantity ∧ 0 ≤ it2.line_total ∧
        ∃ p, db.products.find? (fun pp => decide (pp.id = it2.product_id)) =
            some p ∧ it2.price = p.price) ∧
      dbE.products = db.products ∧ dbE.expired = db.expired ∧
      dbE.payments = db.payments ∧ dbE.borrowers = db.borrowers ∧
      dbE.next_product_id = db.next_product_id ∧
      dbE.next_stock_id = db.next_stock_id ∧
      dbE.next_sale_id = db.next_sale_id ∧
      dbE.next_borrower_id = db.next_borrower_id ∧
      dbE.sale_items =
        db.sale_items.filter (fun it => decide (it.sale_id ≠ inp.sale_id)) ++ L ∧
      dbE.sales =
        db.sales.map (editedSale inp ((L.map (·.line_total)).sum)) ∧
      db1 = maybeSync inp.customer_name
        (syncOldIfChanged oldSale.customer_name inp.customer_name dbE) := by
  obtain ⟨-, -, oldSale, dbA, dbC, dbE, total, borrow, hfind, hres, hloop, hrec, rfl⟩ :=
    editSale_ok_destruct h
  obtain ⟨sale, hfind2, htot, hnn, hbo, hdbE⟩ := recomputeSaleTotals_some hrec
  have hresf := restoreLoop_spec hres
  have hlf := editInsertLoop_spec hloop
  obtain ⟨L, hLeq, hLprops⟩ := hlf.2.2.2.2.2.2.2.2.2
  simp only [dropSaleItems] at hLeq hlf
  have hLprops2 : ∀ it2 ∈ L, it2.sale_id = inp.sale_id ∧ 0 < it2.quantity ∧
      it2.line_total = it2.price * it2.quantity ∧ 0 ≤ it2.line_total ∧
      ∃ p, db.products.find? (fun pp => decide (pp.id = it2.product_id)) =
          some p ∧ it2.price = p.price := by
    intro it2 h2
    obtain ⟨ha, hb, hc, hd, p, hp, hpr⟩ := hLprops it2 h2
    refine ⟨ha, hb, hc, hd, p, ?_, hpr⟩
    rw [← hresf.1]
    exact hp
  have hCitems : dbC.sale_items =
      db.sale_items.filter (fun it => decide (it.sale_id ≠ inp.sale_id)) ++ L := by
    rw [hLeq, hresf.2.2.2.1]
  have hCsales : dbC.sales = db.sales := by
    rw [hlf.2.2.1]
    rw [hresf.2.2.1]
  -- the recomputed total is the line-total sum of the new items
  have hT : saleItemsTotal inp.sale_id (editHeader inp dbC) =
      (L.map (·.line_total)).sum := by
    rw [saleItemsTotal, itemsOf, editHeader]
    simp only
    rw [hCitems, List.filter_append]
    have h1 : (db.sale_items.filter
        (fun it => decide (it.sale_id ≠ inp.sale_id))).filter
        (fun it => decide (it.sale_id = inp.sale_id)) = [] := by
      rw [List.filter_filter, List.filter_eq_nil_iff]
      intro a ha
      simp
    have h2 : L.filter (fun it => decide (it.sale_id = inp.sale_id)) = L := by
      rw [List.filter_eq_self]
      intro a ha
      simpa using (hLprops2 a ha).1
    rw [h1, h2, List.nil_append]
    congr 1
    refine List.map_congr_left fun it2 h2 => ?_
    rw [← (hLprops2 it2 h2).2.2.1]
  -- the sale found by recompute carries the request header
  have hsale : sale.payment_type = inp.payment_type ∧
      sale.paid_amount = inp.paid_amount := by
    have hpid : sale.id = inp.sale_id := by simpa using List.find?_some hfind2
    have hmem := List.mem_of_find?_eq_some hfind2
    simp only [editHeader] at hmem
    obtain ⟨x0, hx0, rfl⟩ := List.mem_map.mp hmem
    by_cases hx0id : x0.id = inp.sale_id
    · simp [hx0id]
    · rw [if_neg hx0id] at hpid
      exact absurd hpid hx0id
  refine ⟨oldSale, L, dbE, hfind, hLprops2, ?_, ?_, ?_, ?_, ?_, ?_, ?_, ?_,
    ?_, ?_, rfl⟩
  · rw [hdbE]
    simp only [editHeader]
    rw [hlf.1]
    rw [hresf.1]
  · rw [hdbE]
    simp only [editHeader]
    rw [hlf.2.1]
    rw [hresf.2.1]
  · rw [hdbE]
    simp only [editHeader]
    rw [hlf.2.2.2.2.1]
    rw [hresf.2.2.2.2.2.1]
  · rw [hdbE]
    simp only [editHeader]
    rw [hlf.2.2.2.1]
    rw [hresf.2.2.2.2.1]
  · rw [hdbE]
    simp only [editHeader]
    rw [hlf.2.2.2.2.2.1]
    rw [hresf.2.2.2.2.2.2.1]
  · rw [hdbE]
    simp only [editHeader]
    rw [hlf.2.2.2.2.2.2.1]
    rw [hresf.2.2.2.2.2.2.2.1]
  · rw [hdbE]
    simp only [editHeader]
    rw [hlf.2.2.2.2.2.2.2.1]
    rw [hresf.2.2.2.2.2.2.2.2.1]
  · rw [hdbE]
    simp only [editHeader]
    rw [hlf.2.2.2.2.2.2.2.2.1]
    rw [hresf.2.2.2.2.2.2.2.2.2]
  · rw [hdbE]
    simp only [editHeader]
    exact hCitems
  · rw [hdbE]
    simp only [editHeader, List.map_map]
    rw [hCsales]
    have htl : total = (L.map (·.line_total)).sum := htot.trans hT
    refine List.map_congr_left fun x hx => ?_
    by_cases hxid : x.id = inp.sale_id
    · simp [Function.comp, editedSale, hxid, hbo, hsale.1, hsale.2, htl]
    · simp [Function.comp, editedSale, hxid]

theorem applyAlloc_map_proj {β : Type} (f : Sale → β)
    (hf : ∀ (s : Sale) (a : Int), f { s with
      paid_amount := s.paid_amount + a,
      borrow_amount := s.borrow_amount - a } = f s)
    (alloc : List (Nat × Int)) (sales : List Sale) :
    (applyAlloc alloc sales).map f = sales.map f := by
  rw [applyAlloc, List.map_map]
  refine List.map_congr_left fun x _ => ?_
  simp only [Function.comp]
  cases List.lookup x.id alloc with
  | none => rfl
  | some a => exact hf x a

theorem wellFormed_applyOp (op : Op) (db : DB) (h : WellFormed db) :
    WellFormed (applyOp op db) := by
  obtain ⟨hs1, hs2, hi1, hb1, hb2, hb3⟩ := h
  cases op with
  | create inp today =>
      rw [applyOp]
      cases hc : createSale inp today db with
      | error e => exact ⟨hs1, hs2, hi1, hb1, hb2, hb3⟩
      | ok db1 =>
          obtain ⟨-, -, -, hsales, hitems, hnext, -, -⟩ := createSale_ok_spec hc
          refine ⟨?_, ?_, ?_, ?_, ?_, ?_⟩
          · intro s hs
            rw [hsales] at hs
            rw [hnext]
            rcases List.mem_append.mp hs with hold | hone
            · have := hs1 s hold
              omega
            · have heq : s = newSaleOf inp today db := by simpa using hone
              subst heq
              show db.next_sale_id < db.next_sale_id + 1
              omega
          · rw [hsales, List.map_append, List.nodup_append]
            refine ⟨hs2, by simp, ?_⟩
            intro a ha hbm
            obtain ⟨s, hsm, rfl⟩ := List.mem_map.mp ha
            have h1 := hs1 s hsm
            have h2 : s.id = db.next_sale_id := by
              simpa [newSaleOf] using hbm
            omega
          · intro it hitm
            rw [hitems] at hitm
            rw [hnext]
            rcases List.mem_append.mp hitm with hold | hone
            · have := hi1 it hold
              omega
            · rw [newItemsOf] at hone
              obtain ⟨src, -, rfl⟩ := List.mem_map.mp hone
              show db.next_sale_id < db.next_sale_id + 1
              omega
          all_goals
            rcases createSale_ok_borrowers hc with ⟨hbeq, hnbeq, -⟩ |
              ⟨cname, hcn, hpos, ⟨hfnone, hbeq, hnbeq⟩ | ⟨b, hfb, hbeq, hnbeq⟩⟩
          · rw [hbeq, hnbeq]
            exact hb1
          · rw [hbeq, hnbeq]
            intro x hx
            rcases List.mem_append.mp hx with hold | hone
            · have := hb1 x hold
              omega
            · have heq : x = ⟨db.next_borrower_id, cname, borrowOf inp⟩ := by
                simpa using hone
              subst heq
              show db.next_borrower_id < db.next_borrower_id + 1
              omega
          · rw [hbeq, hnbeq]
            intro x hx
            obtain ⟨y, hy, rfl⟩ := List.mem_map.mp hx
            have := hb1 y hy
            by_cases hyid : y.id = b.id <;> simp [hyid] <;> omega
          · rw [hbeq]
            exact hb2
          · rw [hbeq, List.map_append, List.nodup_append]
            refine ⟨hb2, by simp, ?_⟩
            intro a ha hbm
            obtain ⟨x, hxm, rfl⟩ := List.mem_map.mp ha
            have h1 := hb1 x hxm
            have h2 : x.id = db.next_borrower_id := by simpa using hbm
            omega
          · rw [hbeq]
            have : (db.borrowers.map fun x =>
                if x.id = b.id then
                  { x with outstanding_amount :=
                      x.outstanding_amount + borrowOf inp }
                else x).map (·.id) = db.borrowers.map (·.id) := by
              rw [List.map_map]
              refine List.map_congr_left fun x _ => ?_
              by_cases hyid : x.id = b.id <;> simp [hyid]
            rw [this]
            exact hb2
          · rw [hbeq]
            exact hb3
          · rw [hbeq, List.map_append, List.nodup_append]
            refine ⟨hb3, by simp, ?_⟩
            intro a ha hbm
            obtain ⟨x, hxm, rfl⟩ := List.mem_map.mp ha
            have h2 : x.name = cname := by simpa using hbm
            have := List.find?_eq_none.mp hfnone x hxm
            simp [h2] at this
          · rw [hbeq]
            have : (db.borrowers.map fun x =>
                if x.id = b.id then
                  { x with outstanding_amount :=
                      x.outstanding_amount + borrowOf inp }
                else x).map (·.name) = db.borrowers.map (·.name) := by
              rw [List.map_map]
              refine List.map_congr_left fun x _ => ?_
              by_cases hyid : x.id = b.id <;> simp [hyid]
            rw [this]
            exact hb3
  | edit inp =>
      rw [applyOp]
      cases he : editSale inp db with
      | error e => exact ⟨hs1, hs2, hi1, hb1, hb2, hb3⟩
      | ok db1 =>
          obtain ⟨oldSale, L, dbE, hfind, hLprops, hEp, hEe, hEpay, hEb, hEnp,
            hEns, hEnsale, hEnb, hEitems, hEsales, hdb1⟩ := editSale_ok_shape he
          have hms := maybeSync_fields inp.customer_name
            (syncOldIfChanged oldSale.customer_name inp.customer_name dbE)
          have hos := syncOldIfChanged_fields oldSale.customer_name
            inp.customer_name dbE
          have h1sales : db1.sales = dbE.sales := by
            rw [hdb1, hms.2.2.2.1, hos.2.2.2.1]
          have h1items : db1.sale_items = dbE.sale_items := by
            rw [hdb1, hms.2.2.2.2.1, hos.2.2.2.2.1]
          have h1nsale : db1.next_sale_id = db.next_sale_id := by
            rw [hdb1, hms.2.2.2.2.2.2.2.2.1, hos.2.2.2.2.2.2.2.2.1, hEnsale]
          have h1nb : db1.next_borrower_id = db.next_borrower_id := by
            rw [hdb1, hms.2.2.2.2.2.2.2.2.2, hos.2.2.2.2.2.2.2.2.2, hEnb]
          have hmk := maybeSync_keys inp.customer_name
            (syncOldIfChanged oldSale.customer_name inp.customer_name dbE)
          have hok := syncOldIfChanged_keys oldSale.customer_name
            inp.customer_name dbE
          have hids : db1.borrowers.map (·.id) = db.borrowers.map (·.id) := by
            rw [hdb1, hmk.1, hok.1, hEb]
          have hnames : db1.borrowers.map (·.name) = db.borrowers.map (·.name) := by
            rw [hdb1, hmk.2, hok.2, hEb]
          refine ⟨?_, ?_, ?_, ?_, ?_, ?_⟩
          · intro s hs
            rw [h1sales, hEsales] at hs
            obtain ⟨x, hx, rfl⟩ := List.mem_map.mp hs
            rw [h1nsale]
            have hxb := hs1 x hx
            by_cases hxid : x.id = inp.sale_id <;>
              · simp [editedSale, hxid]
                omega
          · have : db1.sales.map (·.id) = db.sales.map (·.id) := by
              rw [h1sales, hEsales, List.map_map]
              refine List.map_congr_left fun x _ => ?_
              by_cases hxid : x.id = inp.sale_id <;>
                simp [Function.comp, editedSale, hxid]
            rw [this]
            exact hs2
          · intro it hitm
            rw [h1items, hEitems] at hitm
            rw [h1nsale]
            rcases List.mem_append.mp hitm with hold | hinL
            · exact hi1 it (List.mem_of_mem_filter hold)
            · rw [(hLprops it hinL).1]
              have hmem := List.mem_of_find?_eq_some hfind
              have hoid : oldSale.id = inp.sale_id := by
                simpa using List.find?_some hfind
              rw [← hoid]
              exact hs1 oldSale hmem
          · intro b hbm
            obtain ⟨y, hy, hye⟩ := mem_map_eq_transfer hids b hbm
            rw [h1nb]
            show b.id < db.next_borrower_id
            rw [hye]
            exact hb1 y hy
          · rw [hids]
            exact hb2
          · rw [hnames]
            exact hb3
  | delete sid =>
      rw [applyOp]
      cases hd : deleteSale sid db with
      | error e => exact ⟨hs1, hs2, hi1, hb1, hb2, hb3⟩
      | ok db1 =>
          obtain ⟨-, sale, dbA, hfind, hres, hdb1⟩ := deleteSale_ok_destruct hd
          have hresf := restoreLoop_spec hres
          have hms := maybeSync_fields sale.customer_name (dropSale sid dbA)
          have hmk := maybeSync_keys sale.customer_name (dropSale sid dbA)
          have h1sales : db1.sales =
              db.sales.filter (fun s => decide (s.id ≠ sid)) := by
            rw [hdb1, hms.2.2.2.1, dropSale]
            simp only
            rw [hresf.2.2.1]
          have h1items : db1.sale_items =
              db.sale_items.filter (fun it => decide (it.sale_id ≠ sid)) := by
            rw [hdb1, hms.2.2.2.2.1, dropSale]
            simp only
            rw [hresf.2.2.2.1]
          have h1nsale : db1.next_sale_id = db.next_sale_id := by
            rw [hdb1, hms.2.2.2.2.2.2.2.2.1, dropSale]
            simp only
            rw [hresf.2.2.2.2.2.2.2.2.1]
          have h1nb : db1.next_borrower_id = db.next_borrower_id := by
            rw [hdb1, hms.2.2.2.2.2.2.2.2.2, dropSale]
            simp only
            rw [hresf.2.2.2.2.2.2.2.2.2]
          have hbmap : (dropSale sid dbA).borrowers = db.borrowers := by
            rw [dropSale]
            simp only
            rw [hresf.2.2.2.2.1]
          have hids : db1.borrowers.map (·.id) = db.borrowers.map (·.id) := by
            rw [hdb1, hmk.1, hbmap]
          have hnames : db1.borrowers.map (·.name) =
              db.borrowers.map (·.name) := by
            rw [hdb1, hmk.2, hbmap]
          refine ⟨?_, ?_, ?_, ?_, ?_, ?_⟩
          · intro s hs
            rw [h1sales] at hs
            rw [h1nsale]
            exact hs1 s (List.mem_of_mem_filter hs)
          · rw [h1sales]
            exact List.Nodup.sublist ((List.filter_sublist _).map _) hs2
          · intro it hitm
            rw [h1items] at hitm
            rw [h1nsale]
            exact hi1 it (List.mem_of_mem_filter hitm)
          · intro b hbm
            obtain ⟨y, hy, hye⟩ := mem_map_eq_transfer hids b hbm
            rw [h1nb]
            show b.id < db.next_borrower_id
            rw [hye]
            exact hb1 y hy
          · rw [hids]
            exact hb2
          · rw [hnames]
            exact hb3
  | payment bid amount =>
      rw [applyOp]
      cases hp : recordBorrowerPayment bid amount db with
      | error e => exact ⟨hs1, hs2, hi1, hb1, hb2, hb3⟩
      | ok db1 =>
          obtain ⟨-, -, hpos, b, db2, db3, hfind, hadj, hfifo, hdb1⟩ :=
            recordBorrowerPayment_ok_destruct hp
          obtain ⟨hdb2, -⟩ := borrowerAdjust_some hadj
          have hd2sales : db2.sales = db.sales := by rw [hdb2]
          have hd2items : db2.sale_items = db.sale_items := by rw [hdb2]
          have hd2nsale : db2.next_sale_id = db.next_sale_id := by rw [hdb2]
          have hd2nb : db2.next_borrower_id = db.next_borrower_id := by rw [hdb2]
          have hrows_nd : ((openSalesOf b.name db2).map (·.id)).Nodup := by
            rw [openSalesOf]
            refine ((List.perm_insertionSort _ _).map _).nodup_iff.mpr ?_
            rw [hd2sales]
            exact List.Nodup.sublist ((List.filter_sublist _).map _) hs2
          obtain ⟨hsales3, -, -, -, hitems3, hbor3, -, -, -, hnsale3, hnb3⟩ :=
            fifoLoop_some_spec _ _ _ _ hfifo hpos hrows_nd
          have hsk := syncBorrowerOutstanding_fields b.name db3
          have hskk := syncBorrowerOutstanding_keys b.name db3
          have h1sales : db1.sales =
              applyAlloc (specFifoAlloc amount (openSalesOf b.name db2))
                db.sales := by
            rw [hdb1, hsk.2.2.2.1, hsales3, hd2sales]
          have h1items : db1.sale_items = db.sale_items := by
            rw [hdb1, hsk.2.2.2.2.1, hitems3, hd2items]
          have h1nsale : db1.next_sale_id = db.next_sale_id := by
            rw [hdb1, hsk.2.2.2.2.2.2.2.2.1, hnsale3, hd2nsale]
          have h1nb : db1.next_borrower_id = db.next_borrower_id := by
            rw [hdb1, hsk.2.2.2.2.2.2.2.2.2, hnb3, hd2nb]
          have hd2ids : db2.borrowers.map (·.id) = db.borrowers.map (·.id) := by
            rw [hdb2]
            simp only
            rw [List.map_map]
            refine List.map_congr_left fun x _ => ?_
            by_cases hxid : x.id = bid <;> simp [hxid]
          have hd2names : db2.borrowers.map (·.name) =
              db.borrowers.map (·.name) := by
            rw [hdb2]
            simp only
            rw [List.map_map]
            refine List.map_congr_left fun x _ => ?_
            by_cases hxid : x.id = bid <;> simp [hxid]
          have hids : db1.borrowers.map (·.id) = db.borrowers.map (·.id) := by
            rw [hdb1, hskk.1, hbor3, hd2ids]
          have hnames : db1.borrowers.map (·.name) =
              db.borrowers.map (·.name) := by
            rw [hdb1, hskk.2, hbor3, hd2names]
          have hsid : db1.sales.map (·.id) = db.sales.map (·.id) := by
            rw [h1sales]
            exact applyAlloc_map_proj (·.id) (fun s a => rfl) _ _
          refine ⟨?_, ?_, ?_, ?_, ?_, ?_⟩
          · intro s hs
            obtain ⟨y, hy, hye⟩ := mem_map_eq_transfer hsid s hs
            rw [h1nsale]
            show s.id < db.next_sale_id
            rw [hye]
            exact hs1 y hy
          · rw [hsid]
            exact hs2
          · intro it hitm
            rw [h1items] at hitm
            rw [h1nsale]
            exact hi1 it hitm
          · intro bb hbm
            obtain ⟨y, hy, hye⟩ := mem_map_eq_transfer hids bb hbm
            rw [h1nb]
            show bb.id < db.next_borrower_id
            rw [hye]
            exact hb1 y hy
          · rw [hids]
            exact hb2
          · rw [hnames]
            exact hb3
  | addstock n p e q =>
      rw [applyOp]
      cases ha : addStock n p e q db with
      | error e2 => exact ⟨hs1, hs2, hi1, hb1, hb2, hb3⟩
      | ok db1 =>
          obtain ⟨-, hsales, hitems, hbor, -, hnsale, hnb, -⟩ :=
            addStock_ok_fields ha
          show WellFormed db1
          refine ⟨?_, ?_, ?_, ?_, ?_, ?_⟩
          · rw [hsales, hnsale]; exact hs1
          · rw [hsales]; exact hs2
          · rw [hitems, hnsale]; exact hi1
          · rw [hbor, hnb]; exact hb1
          · rw [hbor]; exact hb2
          · rw [hbor]; exact hb3
  | sweep asOf =>
      rw [applyOp, moveExpiredStock]
      obtain ⟨-, hsales, hitems, hbor, -, -, -, hnsale, hnb, -⟩ :=
        sweepLoop_fields asOf (expiredSelect asOf db) db
      refine ⟨?_, ?_, ?_, ?_, ?_, ?_⟩
      · rw [hsales, hnsale]; exact hs1
      · rw [hsales]; exact hs2
      · rw [hitems, hnsale]; exact hi1
      · rw [hbor, hnb]; exact hb1
      · rw [hbor]; exact hb2
      · rw [hbor]; exact hb3

theorem itemsOf_congr {sid : Nat} {db1 db : DB}
    (h : db1.sale_items = db.sale_items) : itemsOf sid db1 = itemsOf sid db := by
  rw [itemsOf, itemsOf, h]

theorem saleTotalsOk_transfer {db db1 : DB} (h : SaleTotalsOk db)
    (hs : db1.sales = db.sales) (hi : db1.sale_items = db.sale_items) :
    SaleTotalsOk db1 := by
  constructor
  · intro s hsm
    rw [hs] at hsm
    rw [itemsOf_congr hi]
    exact h.1 s hsm
  · intro it hit
    rw [hi] at hit
    exact h.2 it hit

theorem filter_drop_comm {items : List SaleItem} {sid xid : Nat}
    (hne : xid ≠ sid) :
    (items.filter fun it => decide (it.sale_id ≠ sid)).filter
      (fun it => decide (it.sale_id = xid)) =
    items.filter (fun it => decide (it.sale_id = xid)) := by
  induction items with
  | nil => rfl
  | cons a rest ih =>
      by_cases ha : a.sale_id = xid
      · have h2 : a.sale_id ≠ sid := by rw [ha]; exact hne
        rw [List.filter_cons_of_pos (by simpa using h2),
          List.filter_cons_of_pos (by simpa using ha),
          List.filter_cons_of_pos (by simpa using ha), ih]
      · by_cases h2 : a.sale_id = sid
        · rw [List.filter_cons_of_neg (by simpa using h2),
            List.filter_cons_of_neg (by simpa using ha), ih]
        · rw [List.filter_cons_of_pos (by simpa using h2),
            List.filter_cons_of_neg (by simpa using ha),
            List.filter_cons_of_neg (by simpa using ha), ih]

theorem saleTotalsOk_applyOp (op : Op) (db : DB) (hwf : WellFormed db)
    (hinv : SaleTotalsOk db) (hop : opTotalsOk op) :
    SaleTotalsOk (applyOp op db) := by
  obtain ⟨hA, hB⟩ := hinv
  obtain ⟨hs1, hs2, hi1, hb1, hb2, hb3⟩ := hwf
  cases op with
  | create inp today =>
      simp only [opTotalsOk] at hop
      rw [applyOp]
      cases hc : createSale inp today db with
      | error e => exact ⟨hA, hB⟩
      | ok db1 =>
          obtain ⟨-, -, -, hsales, hitems, -, -, -⟩ := createSale_ok_spec hc
          constructor
          · intro s hs
            rw [hsales] at hs
            rcases List.mem_append.mp hs with hold | hone
            · have hlt := hs1 s hold
              have hitEq : itemsOf s.id db1 = itemsOf s.id db := by
                rw [itemsOf, itemsOf, hitems, List.filter_append]
                have hnil : (newItemsOf inp db).filter
                    (fun it => decide (it.sale_id = s.id)) = [] := by
                  rw [List.filter_eq_nil_iff]
                  intro a ha
                  rw [newItemsOf] at ha
                  obtain ⟨src, -, rfl⟩ := List.mem_map.mp ha
                  simp only [decide_eq_true_eq]
                  show ¬ db.next_sale_id = s.id
                  omega
                rw [hnil, List.append_nil]
              rw [hitEq]
              exact hA s hold
            · have heq : s = newSaleOf inp today db := by simpa using hone
              subst heq
              have hitEq : itemsOf (newSaleOf inp today db).id db1 =
                  newItemsOf inp db := by
                rw [itemsOf, hitems, List.filter_append]
                have h1 : db.sale_items.filter
                    (fun it =>
                      decide (it.sale_id = (newSaleOf inp today db).id)) = [] := by
                  rw [List.filter_eq_nil_iff]
                  intro a ha
                  have hlt := hi1 a ha
                  simp only [decide_eq_true_eq]
                  show ¬ a.sale_id = db.next_sale_id
                  omega
                have h2 : (newItemsOf inp db).filter
                    (fun it =>
                      decide (it.sale_id = (newSaleOf inp today db).id)) =
                    newItemsOf inp db := by
                  rw [List.filter_eq_self]
                  intro a ha
                  rw [newItemsOf] at ha
                  obtain ⟨src, -, rfl⟩ := List.mem_map.mp ha
                  simp [newSaleOf]
                rw [h1, h2, List.nil_append]
              rw [hitEq]
              show inp.total_amount = ((newItemsOf inp db).map (·.line_total)).sum
              rw [hop, newItemsOf, List.map_map]
              rfl
          · intro it hitm
            rw [hitems] at hitm
            rcases List.mem_append.mp hitm with hold | hone
            · exact hB it hold
            · rw [newItemsOf] at hone
              obtain ⟨src, -, rfl⟩ := List.mem_map.mp hone
              rfl
  | edit inp =>
      rw [applyOp]
      cases he : editSale inp db with
      | error e => exact ⟨hA, hB⟩
      | ok db1 =>
          obtain ⟨oldSale, L, dbE, hfind, hLp, -, -, -, -, -, -, -, -,
            hEitems, hEsales, hdb1⟩ := editSale_ok_shape he
          have hms := maybeSync_fields inp.customer_name
            (syncOldIfChanged oldSale.customer_name inp.customer_name dbE)
          have hos := syncOldIfChanged_fields oldSale.customer_name
            inp.customer_name dbE
          have h1sales : db1.sales = dbE.sales := by
            rw [hdb1, hms.2.2.2.1, hos.2.2.2.1]
          have h1items : db1.sale_items = dbE.sale_items := by
            rw [hdb1, hms.2.2.2.2.1, hos.2.2.2.2.1]
          constructor
          · intro s hs
            rw [h1sales, hEsales] at hs
            obtain ⟨x, hx, rfl⟩ := List.mem_map.mp hs
            have hid : (editedSale inp ((L.map (·.line_total)).sum) x).id =
                x.id := by
              rw [editedSale]
              split <;> rfl
            by_cases hxid : x.id = inp.sale_id
            · have hitEq : itemsOf
                  (editedSale inp ((L.map (·.line_total)).sum) x).id db1 = L := by
                rw [itemsOf, hid, h1items, hEitems, List.filter_append, hxid]
                have h1 : (db.sale_items.filter
                    (fun it => decide (it.sale_id ≠ inp.sale_id))).filter
                    (fun it => decide (it.sale_id = inp.sale_id)) = [] := by
                  rw [List.filter_filter, List.filter_eq_nil_iff]
                  intro a ha
                  simp
                have h2 : L.filter
                    (fun it => decide (it.sale_id = inp.sale_id)) = L := by
                  rw [List.filter_eq_self]
                  intro a ha
                  simpa using (hLp a ha).1
                rw [h1, h2, List.nil_append]
              rw [hitEq]
              show (editedSale inp ((L.map (·.line_total)).sum) x).total_amount =
                (L.map (·.line_total)).sum
              rw [editedSale, if_pos hxid]
            · have hxedit : editedSale inp ((L.map (·.line_total)).sum) x = x := by
                rw [editedSale, if_neg hxid]
              rw [hxedit]
              have hitEq : itemsOf x.id db1 = itemsOf x.id db := by
                rw [itemsOf, itemsOf, h1items, hEitems, List.filter_append,
                  filter_drop_comm hxid]
                have h2 : L.filter (fun it => decide (it.sale_id = x.id)) = [] := by
                  rw [List.filter_eq_nil_iff]
                  intro a ha
                  have ha1 := (hLp a ha).1
                  simp only [decide_eq_true_eq, ha1]
                  exact fun heq => hxid heq.symm
                rw [h2, List.append_nil]
              rw [hitEq]
              exact hA x hx
          · intro it hitm
            rw [h1items, hEitems] at hitm
            rcases List.mem_append.mp hitm with hold | hinL
            · exact hB it (List.mem_of_mem_filter hold)
            · exact (hLp it hinL).2.2.1
  | delete sid =>
      rw [applyOp]
      cases hd : deleteSale sid db with
      | error e => exact ⟨hA, hB⟩
      | ok db1 =>
          obtain ⟨-, sale, dbA, hfind, hres, hdb1⟩ := deleteSale_ok_destruct hd
          have hresf := restoreLoop_spec hres
          have hms := maybeSync_fields sale.customer_name (dropSale sid dbA)
          have h1sales : db1.sales =
              db.sales.filter (fun s => decide (s.id ≠ sid)) := by
            rw [hdb1, hms.2.2.2.1, dropSale]
            simp only
            rw [hresf.2.2.1]
          have h1items : db1.sale_items =
              db.sale_items.filter (fun it => decide (it.sale_id ≠ sid)) := by
            rw [hdb1, hms.2.2.2.2.1, dropSale]
            simp only
            rw [hresf.2.2.2.1]
          constructor
          · intro s hs
            rw [h1sales] at hs
            have hsid : s.id ≠ sid := by simpa using List.of_mem_filter hs
            have hitEq : itemsOf s.id db1 = itemsOf s.id db := by
              rw [itemsOf, itemsOf, h1items, filter_drop_comm hsid]
            rw [hitEq]
            exact hA s (List.mem_of_mem_filter hs)
          · intro it hitm
            rw [h1items] at hitm
            exact hB it (List.mem_of_mem_filter hitm)
  | payment bid amount =>
      rw [applyOp]
      cases hp : recordBorrowerPayment bid amount db with
      | error e => exact ⟨hA, hB⟩
      | ok db1 =>
          obtain ⟨-, -, hposamt, b, db2, db3, hfind, hadj, hfifo, hdb1⟩ :=
            recordBorrowerPayment_ok_destruct hp
          obtain ⟨hdb2, -⟩ := borrowerAdjust_some hadj
          have hd2sales : db2.sales = db.sales := by rw [hdb2]
          have hd2items : db2.sale_items = db.sale_items := by rw [hdb2]
          have hrows_nd : ((openSalesOf b.name db2).map (·.id)).Nodup := by
            rw [openSalesOf]
            refine ((List.perm_insertionSort _ _).map _).nodup_iff.mpr ?_
            rw [hd2sales]
            exact List.Nodup.sublist ((List.filter_sublist _).map _) hs2
          obtain ⟨hsales3, -, -, -, hitems3, -, -, -, -, -, -⟩ :=
            fifoLoop_some_spec _ _ _ _ hfifo hposamt hrows_nd
          have hsk := syncBorrowerOutstanding_fields b.name db3
          have h1sales : db1.sales =
              applyAlloc (specFifoAlloc amount (openSalesOf b.name db2))
                db.sales := by
            rw [hdb1, hsk.2.2.2.1, hsales3, hd2sales]
          have h1items : db1.sale_items = db.sale_items := by
            rw [hdb1, hsk.2.2.2.2.1, hitems3, hd2items]
          constructor
          · intro s hs
            rw [h1sales, applyAlloc] at hs
            obtain ⟨x, hx, rfl⟩ := List.mem_map.mp hs
            cases hlk : List.lookup x.id
                (specFifoAlloc amount (openSalesOf b.name db2)) with
            | none =>
                simp only [hlk]
                rw [itemsOf_congr h1items]
                exact hA x hx
            | some a =>
                simp only [hlk]
                show x.total_amount = ((itemsOf x.id db1).map (·.line_total)).sum
                rw [itemsOf_congr h1items]
                exact hA x hx
          · intro it hitm
            rw [h1items] at hitm
            exact hB it hitm
  | addstock n p e q =>
      rw [applyOp]
      cases ha : addStock n p e q db with
      | error e2 => exact ⟨hA, hB⟩
      | ok db1 =>
          have hf := addStock_ok_fields ha
          exact saleTotalsOk_transfer ⟨hA, hB⟩ hf.2.1 hf.2.2.1
  | sweep asOf =>
      rw [applyOp, moveExpiredStock]
      have hf := sweepLoop_fields asOf (expiredSelect asOf db) db
      exact saleTotalsOk_transfer ⟨hA, hB⟩ hf.2.1 hf.2.2.1

theorem borrowOf_nonneg {inp : CreateSaleIn}
    (h : inp.payment_type = PayType.BORROW →
      inp.paid_amount ≤ inp.total_amount) : 0 ≤ borrowOf inp := by
  rw [borrowOf]
  split
  next hb => have := h hb; omega
  next => omega

theorem coveredSale_transfer {db1 db : DB}
    (h : db1.borrowers.map (·.name) = db.borrowers.map (·.name)) {s : Sale}
    (hc : coveredSale db s) : coveredSale db1 s := by
  intro hpos
  rcases hc hpos with hnone | ⟨b, hb, he⟩
  · exact Or.inl hnone
  · right
    have hmem : b.name ∈ db1.borrowers.map (·.name) := by
      rw [h]
      exact List.mem_map_of_mem _ hb
    obtain ⟨b2, hb2, he2⟩ := List.mem_map.mp hmem
    exact ⟨b2, hb2, by rw [he2]; exact he⟩

theorem restoreLoop_nonneg {items : List SaleItem} {db db2 : DB}
    (h : restoreLoop items db = some db2)
    (h0 : ∀ r ∈ db.stock, 0 ≤ r.quantity) : ∀ r ∈ db2.stock, 0 ≤ r.quantity := by
  induction items generalizing db with
  | nil => rw [restoreLoop] at h; cases h; exact h0
  | cons it rest ih =>
      rw [restoreLoop] at h
      split at h
      · simp at h
      next st hadj => exact ih h (stockAdjust_nonneg hadj h0)

theorem editInsertLoop_nonneg {sid : Nat} {items : List SaleItemIn}
    {db db2 : DB} (h : editInsertLoop sid items db = Except.ok db2)
    (h0 : ∀ r ∈ db.stock, 0 ≤ r.quantity) : ∀ r ∈ db2.stock, 0 ≤ r.quantity := by
  induction items generalizing db with
  | nil => rw [editInsertLoop] at h; cases h; exact h0
  | cons it rest ih =>
      rw [editInsertLoop] at h
      split at h
      · exact ih h h0
      split at h
      · simp at h
      next p hp =>
        split at h
        · simp at h
        next st hadj =>
          split at h
          · exact ih h (stockAdjust_nonneg hadj h0)
          · simp at h

theorem fifoLoop_stock {rows : List Sale} {r : Int} {db db3 : DB}
    (h : fifoLoop r rows db = some db3) : db3.stock = db.stock := by
  induction rows generalizing r db with
  | nil => rw [fifoLoop] at h; cases h; rfl
  | cons s rest ih =>
      rw [fifoLoop] at h
      split at h
      · cases h; rfl
      split at h
      · exact (ih h).trans rfl
      · simp at h

theorem createSale_ok_stock {inp : CreateSaleIn} {today : Nat} {db db1 : DB}
    (h : createSale inp today db = Except.ok db1)
    (h0 : ∀ r ∈ db.stock, 0 ≤ r.quantity) : ∀ r ∈ db1.stock, 0 ≤ r.quantity := by
  rw [createSale] at h
  split at h
  · simp at h
  split at h
  case isFalse => simp at h
  case isTrue =>
  split at h
  · simp at h
  next db2 hloop =>
  have hnn : ∀ r ∈ db2.stock, 0 ≤ r.quantity :=
    (insertItemsLoop_stock hloop).2 h0
  split at h
  case isTrue =>
    split at h
    · cases h; exact hnn
    next cname =>
      split at h
      · cases h; simpa using hnn
      next b hf =>
        split at h
        · simp at h
        next db3 hadj =>
          cases h
          obtain ⟨hdb3, -⟩ := borrowerAdjust_some hadj
          subst hdb3
          simpa using hnn
  case isFalse => cases h; exact hnn

theorem insertItemsLoop_insufficient {saleId : Nat} :
    ∀ (items : List SaleItemIn) (db : DB) (it : SaleItemIn) (r : StockRow),
      it ∈ items → r ∈ db.stock → r.product_id = it.product_id →
      r.quantity < it.quantity → insertItemsLoop saleId items db = none := by
  intro items
  induction items with
  | nil => intro db it r hmem; simp at hmem
  | cons it0 rest ih =>
      intro db it r hmem hr hpid hlt
      rw [insertItemsLoop]
      rcases List.mem_cons.mp hmem with rfl | hrest
      · have hadj : stockAdjust it.product_id (-it.quantity) db.stock = none := by
          rw [stockAdjust, if_neg]
          intro hall
          have := hall r hr hpid
          omega
        rw [hadj]
      · cases hadj : stockAdjust it0.product_id (-it0.quantity) db.stock with
        | none => rfl
        | some st =>
            simp only
            split
            next hq =>
              refine ih _ it
                ⟨r.id, r.product_id,
                  if r.product_id = it0.product_id then
                    r.quantity + -it0.quantity else r.quantity⟩
                hrest ?_ hpid ?_
              · obtain ⟨rfl, -⟩ := stockAdjust_some hadj
                show _ ∈ List.map _ db.stock
                refine List.mem_map.mpr ⟨r, hr, ?_⟩
                by_cases hp : r.product_id = it0.product_id <;> simp [hp]
              · have := hq.1
                by_cases hp : r.product_id = it0.product_id <;> simp [hp] <;> omega
            next => rfl

/-- C9 witness: the amended failure modes at concrete inputs. -/
theorem c9_addstock_failures_witness :
    addStock "X" 5 100 0 dbW = Except.error DbError.missingFields ∧
    addStock "New" 10 100 (-3) dbW = Except.error DbError.checkViolation ∧
    applyOp (Op.addstock "New" 10 100 (-3)) dbW = dbW := by
  refine ⟨c9_addstock_failures.1 "X" 5 100 dbW,
    c9_addstock_failures.2.2 "New" 10 100 (-3) dbW (by decide) (by decide)
      (by decide) rfl (by decide),
    c9_addstock_failures.2.1 "New" 10 100 (-3) dbW ?_⟩
  rintro ⟨db1, hdb1⟩
  rw [c9_addstock_failures.2.2 "New" 10 100 (-3) dbW (by decide) (by decide)
    (by decide) rfl (by decide)] at hdb1
  exact absurd hdb1 (by simp)

theorem createSale_insufficient {inp : CreateSaleIn} {today : Nat} {db : DB}
    {it : SaleItemIn} {r : StockRow} (hit : it ∈ inp.items) (hr : r ∈ db.stock)
    (hpid : r.product_id = it.product_id) (hlt : r.quantity < it.quantity) :
    ∀ db1, createSale inp today db ≠ Except.ok db1 := by
  intro db1 h
  rw [createSale] at h
  split at h
  · simp at h
  split at h
  case isFalse => simp at h
  case isTrue =>
  split at h
  · simp at h
  next db2 hloop =>
    have hnone := @insertItemsLoop_insufficient db.next_sale_id inp.items
      { db with
        sales := db.sales ++ [newSaleOf inp today db],
        next_sale_id := db.next_sale_id + 1 }
      it r hit hr hpid hlt
    rw [hnone] at hloop
    cases hloop

theorem stockNonneg_applyOp (op : Op) (db : DB) (h : StockNonneg db) :
    StockNonneg (applyOp op db) := by
  cases op with
  | create inp today =>
      rw [applyOp]
      cases hc : createSale inp today db with
      | error e => exact h
      | ok db1 => exact createSale_ok_stock hc h
  | edit inp =>
      rw [applyOp]
      cases he : editSale inp db with
      | error e => exact h
      | ok db1 =>
          obtain ⟨-, -, oldSale, dbA, dbC, dbE, total, borrow, hfind, hres,
            hloop, hrec, hdb1⟩ := editSale_ok_destruct he
          have hA : ∀ x ∈ dbA.stock, 0 ≤ x.quantity := restoreLoop_nonneg hres h
          have hC : ∀ x ∈ dbC.stock, 0 ≤ x.quantity :=
            editInsertLoop_nonneg hloop hA
          obtain ⟨sale, -, -, -, -, hdbE⟩ := recomputeSaleTotals_some hrec
          have hE : ∀ x ∈ dbE.stock, 0 ≤ x.quantity := by
            rw [hdbE]
            exact hC
          have hms := maybeSync_fields inp.customer_name
            (syncOldIfChanged oldSale.customer_name inp.customer_name dbE)
          have hos := syncOldIfChanged_fields oldSale.customer_name
            inp.customer_name dbE
          intro x hx
          rw [hdb1, hms.2.1, hos.2.1] at hx
          exact hE x hx
  | delete sid =>
      rw [applyOp]
      cases hd : deleteSale sid db with
      | error e => exact h
      | ok db1 =>
          obtain ⟨-, sale, dbA, hfind, hres, hdb1⟩ := deleteSale_ok_destruct hd
          have hA := restoreLoop_nonneg hres h
          have hms := maybeSync_fields sale.customer_name (dropSale sid dbA)
          intro x hx
          rw [hdb1, hms.2.1] at hx
          exact hA x hx
  | payment bid amount =>
      rw [applyOp]
      cases hp : recordBorrowerPayment bid amount db with
      | error e => exact h
      | ok db1 =>
          obtain ⟨-, -, -, b, db2, db3, hfind, hadj, hfifo, hdb1⟩ :=
            recordBorrowerPayment_ok_destruct hp
          obtain ⟨hdb2, -⟩ := borrowerAdjust_some hadj
          have hst3 : db3.stock = db.stock := by
            rw [fifoLoop_stock hfifo, hdb2]
          have hsk := syncBorrowerOutstanding_fields b.name db3
          intro x hx
          rw [hdb1, hsk.2.1, hst3] at hx
          exact h x hx
  | addstock n p e q =>
      rw [applyOp]
      cases ha : addStock n p e q db with
      | error e2 => exact h
      | ok db1 => exact (addStock_ok_fields ha).2.2.2.2.2.2.2 h
  | sweep asOf =>
      rw [applyOp, moveExpiredStock]
      intro x hx
      exact h x
        ((sweepLoop_fields asOf (expiredSelect asOf db) db).2.2.2.2.2.2.2.2.2 x hx)

theorem syncBorrowerOutstanding_ledger {n : String} {db : DB}
    (hids : (db.borrowers.map (·.id)).Nodup)
    (hnames : (db.borrowers.map (·.name)).Nodup)
    (hnn : ∀ z ∈ db.sales, 0 ≤ z.borrow_amount) :
    ∀ y ∈ (syncBorrowerOutstanding n db).borrowers,
      ∃ x ∈ db.borrowers, x.name = y.name ∧
        ((x.name = n ∧ y.outstanding_amount = sumBorrow n db.sales) ∨
         (x.name ≠ n ∧ y.outstanding_amount = x.outstanding_amount)) := by
  intro y hy
  rw [syncBorrowerOutstanding_char hids hnames] at hy
  obtain ⟨x, hx, rfl⟩ := List.mem_map.mp hy
  by_cases hxn : x.name = n
  · rw [if_pos hxn]
    refine ⟨x, hx, rfl, Or.inl ⟨hxn, ?_⟩⟩
    have hge : 0 ≤ sumBorrow n db.sales := sumBorrow_nonneg hnn
    show max 0 (sumBorrow n db.sales) = sumBorrow n db.sales
    omega
  · rw [if_neg hxn]
    exact ⟨x, hx, rfl, Or.inr ⟨hxn, rfl⟩⟩

theorem borrowerLedgerOk_transfer {db db1 : DB} (h : BorrowerLedgerOk db)
    (hs : db1.sales = db.sales) (hbb : db1.borrowers = db.borrowers) :
    BorrowerLedgerOk db1 := by
  obtain ⟨ha, hbnn, hcov⟩ := h
  refine ⟨?_, ?_, ?_⟩
  · intro y hy
    rw [hbb] at hy
    rw [hs]
    exact ha y hy
  · intro s hsm
    rw [hs] at hsm
    exact hbnn s hsm
  · intro s hsm
    rw [hs] at hsm
    exact coveredSale_transfer (by rw [hbb]) (hcov s hsm)

theorem borrowerLedgerOk_create {inp : CreateSaleIn} {today : Nat} {db db1 : DB}
    (hwf : WellFormed db) (hinv : BorrowerLedgerOk db)
    (hok : inp.payment_type = PayType.BORROW →
      inp.paid_amount ≤ inp.total_amount)
    (hc : createSale inp today db = Except.ok db1) : BorrowerLedgerOk db1 := by
  obtain ⟨ha, hb, hcov⟩ := hinv
  obtain ⟨hs1, hs2, hi1, hb1, hb2, hb3⟩ := hwf
  have hbo : 0 ≤ borrowOf inp := borrowOf_nonneg hok
  obtain ⟨-, -, -, hsales, -, -, -, -⟩ := createSale_ok_spec hc
  have hBnew : ∀ s ∈ db1.sales, 0 ≤ s.borrow_amount := by
    intro s hs
    rw [hsales] at hs
    rcases List.mem_append.mp hs with hold | hone
    · exact hb s hold
    · have heq : s = newSaleOf inp today db := by simpa using hone
      subst heq
      exact hbo
  rcases createSale_ok_borrowers hc with ⟨hbeq, -, hz⟩ |
    ⟨cname, hcn, hpos, ⟨hfnone, hbeq, -⟩ | ⟨b0, hf, hbeq, -⟩⟩
  · -- no borrower change: the new sale contributes nothing
    refine ⟨?_, hBnew, ?_⟩
    · intro y hy
      rw [hbeq] at hy
      rw [hsales, sumBorrow_append_singleton]
      have hcontrib : contrib y.name (newSaleOf inp today db) = 0 := by
        rw [contrib]
        split
        next hcond =>
          rcases hz with hle | hnone
          · show borrowOf inp = 0
            omega
          · have h2 : inp.customer_name = some y.name := hcond
            rw [hnone] at h2
            cases h2
        next => rfl
      rw [hcontrib, add_zero]
      exact ha y hy
    · intro s hs
      rw [hsales] at hs
      rcases List.mem_append.mp hs with hold | hone
      · exact coveredSale_transfer (by rw [hbeq]) (hcov s hold)
      · have heq : s = newSaleOf inp today db := by simpa using hone
        subst heq
        intro hpos2
        rcases hz with hle | hnone
        · have h1 : 0 < borrowOf inp := hpos2
          omega
        · exact Or.inl hnone
  · -- fresh borrower row inserted for cname
    have hnocname : ∀ x ∈ db.borrowers, x.name ≠ cname := by
      intro x hx he
      have := List.find?_eq_none.mp hfnone x hx
      simp [he] at this
    refine ⟨?_, hBnew, ?_⟩
    · intro y hy
      rw [hbeq] at hy
      rw [hsales, sumBorrow_append_singleton]
      rcases List.mem_append.mp hy with hyold | hynew
      · have hyne : y.name ≠ cname := hnocname y hyold
        have hcontrib : contrib y.name (newSaleOf inp today db) = 0 := by
          rw [contrib]
          split
          next hcond =>
            have h2 : inp.customer_name = some y.name := hcond
            rw [hcn] at h2
            have h3 : cname = y.name := by simpa using h2
            exact absurd h3.symm hyne
          next => rfl
        rw [hcontrib, add_zero]
        exact ha y hyold
      · have heq : y = ⟨db.next_borrower_id, cname, borrowOf inp⟩ := by
          simpa using hynew
        subst heq
        have hzero : sumBorrow cname db.sales = 0 := by
          refine sumBorrow_eq_zero_of ?_
          intro z hz hzc
          by_contra hne
          have hzpos : 0 < z.borrow_amount :=
            lt_of_le_of_ne (hb z hz) (Ne.symm hne)
          rcases hcov z hz hzpos with hnone | ⟨bb, hbb, hebb⟩
          · rw [hnone] at hzc
            cases hzc
          · have hbbn : bb.name = cname := by
              rw [hzc] at hebb
              simpa using hebb
            exact hnocname bb hbb hbbn
        show borrowOf inp = sumBorrow cname db.sales +
          contrib cname (newSaleOf inp today db)
        rw [hzero, zero_add, contrib]
        split
        · rfl
        next hne => exact absurd hcn hne
    · intro s hs
      rw [hsales] at hs
      rcases List.mem_append.mp hs with hold | hone
      · intro hpos2
        rcases hcov s hold hpos2 with hnone | ⟨bb, hbb, hebb⟩
        · exact Or.inl hnone
        · exact Or.inr ⟨bb, by rw [hbeq]; exact List.mem_append_left _ hbb, hebb⟩
      · have heq : s = newSaleOf inp today db := by simpa using hone
        subst heq
        intro hpos2
        refine Or.inr ⟨⟨db.next_borrower_id, cname, borrowOf inp⟩, ?_, ?_⟩
        · rw [hbeq]
          exact List.mem_append_right _ (by simp)
        · exact hcn.symm
  · -- existing borrower b0 incremented
    have hb0mem := List.mem_of_find?_eq_some hf
    have hb0n : b0.name = cname := by simpa using List.find?_some hf
    have hnameseq : db1.borrowers.map (·.name) = db.borrowers.map (·.name) := by
      rw [hbeq, List.map_map]
      refine List.map_congr_left fun x _ => ?_
      by_cases hxid : x.id = b0.id <;> simp [hxid]
    refine ⟨?_, hBnew, ?_⟩
    · intro y hy
      rw [hbeq] at hy
      obtain ⟨x, hx, rfl⟩ := List.mem_map.mp hy
      by_cases hxid : x.id = b0.id
      · have hxb0 : x = b0 := List.inj_on_of_nodup_map hb2 hx hb0mem hxid
        subst hxb0
        rw [if_pos hxid]
        rw [hsales, sumBorrow_append_singleton]
        show x.outstanding_amount + borrowOf inp =
          sumBorrow x.name db.sales + contrib x.name (newSaleOf inp today db)
        have hcontrib : contrib x.name (newSaleOf inp today db) =
            borrowOf inp := by
          rw [contrib]
          split
          · rfl
          next hne =>
            have : inp.customer_name = some x.name := by
              rw [hb0n]
              exact hcn
            exact absurd this hne
        rw [hcontrib]
        have := ha x hx
        omega
      · rw [if_neg hxid]
        rw [hsales, sumBorrow_append_singleton]
        have hxname : x.name ≠ cname := by
          intro he
          exact hxid (congrArg (·.id)
            (List.inj_on_of_nodup_map hb3 hx hb0mem (by rw [he, hb0n])))
        have hcontrib : contrib x.name (newSaleOf inp today db) = 0 := by
          rw [contrib]
          split
          next hcond =>
            have h2 : inp.customer_name = some x.name := hcond
            rw [hcn] at h2
            have h3 : cname = x.name := by simpa using h2
            exact absurd h3.symm hxname
          next => rfl
        rw [hcontrib, add_zero]
        exact ha x hx
    · intro s hs
      rw [hsales] at hs
      rcases List.mem_append.mp hs with hold | hone
      · exact coveredSale_transfer hnameseq (hcov s hold)
      · have heq : s = newSaleOf inp today db := by simpa using hone
        subst heq
        have hcov2 : coveredSale db (newSaleOf inp today db) := fun _ =>
          Or.inr ⟨b0, hb0mem, by rw [hb0n]; exact hcn.symm⟩
        exact coveredSale_transfer hnameseq hcov2

theorem borrowerLedgerOk_delete {sid : Nat} {db db1 : DB}
    (hwf : WellFormed db) (hinv : BorrowerLedgerOk db)
    (hd : deleteSale sid db = Except.ok db1) : BorrowerLedgerOk db1 := by
  obtain ⟨ha, hb, hcov⟩ := hinv
  obtain ⟨hs1, hs2, hi1, hb1, hb2, hb3⟩ := hwf
  obtain ⟨-, sale, dbA, hfind, hres, hdb1⟩ := deleteSale_ok_destruct hd
  have hresf := restoreLoop_spec hres
  have hsalemem : sale ∈ db.sales := List.mem_of_find?_eq_some hfind
  have hsid : sale.id = sid := by simpa using List.find?_some hfind
  have hbDrop : (dropSale sid dbA).borrowers = db.borrowers := by
    rw [dropSale]
    simp only
    rw [hresf.2.2.2.2.1]
  have hsDrop : (dropSale sid dbA).sales =
      db.sales.filter (fun z => decide (z.id ≠ sid)) := by
    rw [dropSale]
    simp only
    rw [hresf.2.2.1]
  have hms := maybeSync_fields sale.customer_name (dropSale sid dbA)
  have hmk := maybeSync_keys sale.customer_name (dropSale sid dbA)
  have h1sales : db1.sales =
      db.sales.filter (fun z => decide (z.id ≠ sid)) := by
    rw [hdb1, hms.2.2.2.1, hsDrop]
  have hnames : db1.borrowers.map (·.name) = db.borrowers.map (·.name) := by
    rw [hdb1, hmk.2, hbDrop]
  have hsum : ∀ n,
      sumBorrow n (db.sales.filter (fun z => decide (z.id ≠ sid))) =
        sumBorrow n db.sales - contrib n sale :=
    fun n => sumBorrow_filter_remove hs2 hsalemem hsid
  have hBnew : ∀ s ∈ db1.sales, 0 ≤ s.borrow_amount := by
    intro s hs
    rw [h1sales] at hs
    exact hb s (List.mem_of_mem_filter hs)
  refine ⟨?_, hBnew, ?_⟩
  · intro y hy
    rw [h1sales]
    cases hcn : sale.customer_name with
    | none =>
        rw [hcn] at hdb1
        simp only [maybeSync] at hdb1
        rw [hdb1, hbDrop] at hy
        rw [hsum y.name]
        have hcontrib : contrib y.name sale = 0 := by
          rw [contrib, hcn]
          simp
        rw [hcontrib]
        have := ha y hy
        omega
    | some o =>
        rw [hcn] at hdb1
        simp only [maybeSync] at hdb1
        rw [hdb1] at hy
        have hids2 : ((dropSale sid dbA).borrowers.map (·.id)).Nodup := by
          rw [hbDrop]
          exact hb2
        have hnames2 : ((dropSale sid dbA).borrowers.map (·.name)).Nodup := by
          rw [hbDrop]
          exact hb3
        have hnn2 : ∀ z ∈ (dropSale sid dbA).sales, 0 ≤ z.borrow_amount := by
          intro z hz
          rw [hsDrop] at hz
          exact hb z (List.mem_of_mem_filter hz)
        obtain ⟨x, hx, hxname, hcase⟩ :=
          syncBorrowerOutstanding_ledger hids2 hnames2 hnn2 y hy
        rw [hbDrop] at hx
        rcases hcase with ⟨hxo, hout⟩ | ⟨hxo, hout⟩
        · rw [hsDrop] at hout
          rw [← hxname, hxo]
          exact hout
        · rw [hout, ← hxname, hsum x.name]
          have hcontrib : contrib x.name sale = 0 := by
            rw [contrib, hcn]
            rw [if_neg (show ¬ (some o = some x.name) from
              fun he => hxo (Option.some.inj he).symm)]
          rw [hcontrib]
          have := ha x hx
          omega
  · intro s hs
    rw [h1sales] at hs
    exact coveredSale_transfer hnames (hcov s (List.mem_of_mem_filter hs))

theorem sumBorrow_cons (n : String) (w : Sale) (ws : List Sale) :
    sumBorrow n (w :: ws) = contrib n w + sumBorrow n ws := by
  rw [sumBorrow_eq, List.map_cons, List.sum_cons, ← sumBorrow_eq]

theorem sumBorrow_applyAlloc_other {n : String} {alloc : List (Nat × Int)} :
    ∀ (sales : List Sale),
      (∀ z ∈ sales, ∀ a, List.lookup z.id alloc = some a →
        z.customer_name ≠ some n) →
      sumBorrow n (applyAlloc alloc sales) = sumBorrow n sales := by
  intro sales
  induction sales with
  | nil => intro h; rfl
  | cons z rest ih =>
      intro h
      have hstep : applyAlloc alloc (z :: rest) =
          (match List.lookup z.id alloc with
            | some a =>
                { z with
                  paid_amount := z.paid_amount + a,
                  borrow_amount := z.borrow_amount - a }
            | none => z) :: applyAlloc alloc rest := by
        rw [applyAlloc, applyAlloc, List.map_cons]
      rw [hstep, sumBorrow_cons, sumBorrow_cons,
        ih (fun w hw => h w (List.mem_cons_of_mem _ hw))]
      congr 1
      cases hlk : List.lookup z.id alloc with
      | none => rfl
      | some a =>
          have hne := h z (List.mem_cons_self _ _) a hlk
          simp [contrib, hne]

theorem borrowerLedgerOk_payment {bid : Nat} {amount : Int} {db db1 : DB}
    (hwf : WellFormed db) (hinv : BorrowerLedgerOk db)
    (hp : recordBorrowerPayment bid amount db = Except.ok db1) :
    BorrowerLedgerOk db1 := by
  obtain ⟨ha, hb, hcov⟩ := hinv
  obtain ⟨hs1, hs2, hi1, hb1, hb2, hb3⟩ := hwf
  obtain ⟨-, -, hamt, b, db2, db3, hfind, hadj, hfifo, hdb1⟩ :=
    recordBorrowerPayment_ok_destruct hp
  obtain ⟨hdb2, -⟩ := borrowerAdjust_some hadj
  have hbmem : b ∈ db.borrowers := List.mem_of_find?_eq_some hfind
  have hbid : b.id = bid := by simpa using List.find?_some hfind
  have hd2sales : db2.sales = db.sales := by rw [hdb2]
  have hd2bor : db2.borrowers = db.borrowers.map (fun x =>
      if x.id = bid then
        { x with outstanding_amount := x.outstanding_amount + -amount }
      else x) := by
    rw [hdb2]
  have hrows_nd : ((openSalesOf b.name db2).map (·.id)).Nodup := by
    rw [openSalesOf]
    refine ((List.perm_insertionSort _ _).map _).nodup_iff.mpr ?_
    rw [hd2sales]
    exact List.Nodup.sublist ((List.filter_sublist _).map _) hs2
  obtain ⟨hsales3, -, -, -, -, hbor3, -, -, -, -, -⟩ :=
    fifoLoop_some_spec _ _ _ _ hfifo hamt hrows_nd
  have hrows : ∀ s ∈ openSalesOf b.name db2,
      s ∈ db.sales ∧ s.customer_name = some b.name ∧ 0 < s.borrow_amount := by
    intro s hs
    rw [openSalesOf] at hs
    have hsm := (List.perm_insertionSort _ _).mem_iff.mp hs
    have hmem := List.mem_of_mem_filter hsm
    have hcond := List.of_mem_filter hsm
    simp only [Bool.and_eq_true, decide_eq_true_eq] at hcond
    rw [hd2sales] at hmem
    exact ⟨hmem, hcond.1, hcond.2⟩
  have hbounds := specFifoAlloc_bounds amount (openSalesOf b.name db2) hamt
    (fun s hs => (hrows s hs).2.2)
  have hsk := syncBorrowerOutstanding_fields b.name db3
  have h1sales : db1.sales =
      applyAlloc (specFifoAlloc amount (openSalesOf b.name db2)) db.sales := by
    rw [hdb1, hsk.2.2.2.1, hsales3, hd2sales]
  have hskk := syncBorrowerOutstanding_keys b.name db3
  have hd2names : db2.borrowers.map (·.name) = db.borrowers.map (·.name) := by
    rw [hd2bor, List.map_map]
    refine List.map_congr_left fun x _ => ?_
    by_cases hxid : x.id = bid <;> simp [hxid]
  have hd2ids : db2.borrowers.map (·.id) = db.borrowers.map (·.id) := by
    rw [hd2bor, List.map_map]
    refine List.map_congr_left fun x _ => ?_
    by_cases hxid : x.id = bid <;> simp [hxid]
  have hnames1 : db1.borrowers.map (·.name) = db.borrowers.map (·.name) := by
    rw [hdb1, hskk.2, hbor3, hd2names]
  have hlook : ∀ x ∈ db.sales, ∀ a : Int,
      List.lookup x.id (specFifoAlloc amount (openSalesOf b.name db2)) =
        some a →
      0 ≤ a ∧ a ≤ x.borrow_amount ∧ x.customer_name = some b.name := by
    intro x hx a hlk
    have hmem := mem_of_lookup_eq_some hlk
    obtain ⟨h0a, s, hsrows, hsid2, hsle⟩ := hbounds (x.id, a) hmem
    obtain ⟨hsdb, hscust, hspos⟩ := hrows s hsrows
    have hsx : s = x := List.inj_on_of_nodup_map hs2 hsdb hx hsid2
    subst hsx
    exact ⟨h0a, hsle, hscust⟩
  have hBnew : ∀ s ∈ db1.sales, 0 ≤ s.borrow_amount := by
    intro s hs
    rw [h1sales, applyAlloc] at hs
    obtain ⟨x, hx, rfl⟩ := List.mem_map.mp hs
    cases hlk : List.lookup x.id
        (specFifoAlloc amount (openSalesOf b.name db2)) with
    | none =>
        simp only [hlk]
        exact hb x hx
    | some a =>
        simp only [hlk]
        obtain ⟨h0a, hle, -⟩ := hlook x hx a hlk
        show 0 ≤ x.borrow_amount - a
        omega
  refine ⟨?_, hBnew, ?_⟩
  · intro y hy
    rw [hdb1] at hy
    have hids3 : (db3.borrowers.map (·.id)).Nodup := by
      rw [hbor3, hd2ids]
      exact hb2
    have hnames3 : (db3.borrowers.map (·.name)).Nodup := by
      rw [hbor3, hd2names]
      exact hb3
    have hnn3 : ∀ z ∈ db3.sales, 0 ≤ z.borrow_amount := by
      intro z hz
      rw [hsales3, hd2sales] at hz
      exact hBnew z (by rw [h1sales]; exact hz)
    obtain ⟨x, hx3, hxname, hcase⟩ :=
      syncBorrowerOutstanding_ledger hids3 hnames3 hnn3 y hy
    have h1sales_eq3 : db1.sales = db3.sales := by
      rw [h1sales, hsales3, hd2sales]
    rcases hcase with ⟨hxb, hout⟩ | ⟨hxb, hout⟩
    · rw [← hxname, hxb, h1sales_eq3]
      exact hout
    · rw [hbor3, hd2bor] at hx3
      obtain ⟨x0, hx0, heq⟩ := List.mem_map.mp hx3
      have heq2 : (if x0.id = bid then
          { x0 with outstanding_amount := x0.outstanding_amount + -amount }
          else x0) = x := heq
      by_cases hx0id : x0.id = bid
      · exfalso
        apply hxb
        rw [← heq2, if_pos hx0id]
        show x0.name = b.name
        have hx0b : x0 = b :=
          List.inj_on_of_nodup_map hb2 hx0 hbmem (by rw [hx0id, hbid])
        rw [hx0b]
      · have hxeq : x = x0 := by rw [← heq2, if_neg hx0id]
        rw [hxeq] at hxname hxb hout
        rw [hout, ← hxname, h1sales]
        have hother : ∀ z ∈ db.sales, ∀ a : Int,
            List.lookup z.id
              (specFifoAlloc amount (openSalesOf b.name db2)) = some a →
            z.customer_name ≠ some x0.name := by
          intro z hz a hlk he
          obtain ⟨-, -, hzc⟩ := hlook z hz a hlk
          rw [hzc] at he
          exact hxb (Option.some.inj he).symm
        rw [sumBorrow_applyAlloc_other _ hother]
        exact ha x0 hx0
  · intro s hs
    rw [h1sales, applyAlloc] at hs
    obtain ⟨x, hx, rfl⟩ := List.mem_map.mp hs
    cases hlk : List.lookup x.id
        (specFifoAlloc amount (openSalesOf b.name db2)) with
    | none =>
        simp only [hlk]
        exact coveredSale_transfer hnames1 (hcov x hx)
    | some a =>
        simp only [hlk]
        intro hpos
        obtain ⟨h0a, hle, -⟩ := hlook x hx a hlk
        have hxpos : 0 < x.borrow_amount := by
          have hp2 : 0 < x.borrow_amount - a := hpos
          omega
        rcases hcov x hx hxpos with hnone | ⟨b0, hb0, he0⟩
        · exact Or.inl hnone
        · right
          have hmm : b0.name ∈ db1.borrowers.map (·.name) := by
            rw [hnames1]
            exact List.mem_map_of_mem _ hb0
          obtain ⟨b2, hb2m, he2⟩ := List.mem_map.mp hmm
          exact ⟨b2, hb2m, by rw [he2]; exact he0⟩

theorem borrowerLedgerOk_edit {inp : EditSaleIn} {db db1 : DB}
    (hwf : WellFormed db) (hinv : BorrowerLedgerOk db)
    (hok : inp.payment_type = PayType.BORROW →
      inp.customer_name = none ∨
        ∃ b ∈ db.borrowers, some b.name = inp.customer_name)
    (he : editSale inp db = Except.ok db1) : BorrowerLedgerOk db1 := by
  obtain ⟨ha, hb, hcov⟩ := hinv
  obtain ⟨hs1, hs2, hi1, hb1, hb2, hb3⟩ := hwf
  obtain ⟨oldSale, L, dbE, hfind, hLp, -, -, -, hEb, -, -, -, -, hEitems,
    hEsales, hdb1⟩ := editSale_ok_shape he
  have hOmem : oldSale ∈ db.sales := List.mem_of_find?_eq_some hfind
  have hOid : oldSale.id = inp.sale_id := by simpa using List.find?_some hfind
  have hedit_other : ∀ z ∈ db.sales, z ≠ oldSale →
      editedSale inp ((L.map (·.line_total)).sum) z = z := by
    intro z hz hne
    rw [editedSale, if_neg]
    intro hzid
    exact hne (List.inj_on_of_nodup_map hs2 hz hOmem (by rw [hzid, hOid]))
  have hsum : ∀ n, sumBorrow n dbE.sales =
      sumBorrow n db.sales - contrib n oldSale +
        contrib n (editedSale inp ((L.map (·.line_total)).sum) oldSale) := by
    intro n
    rw [hEsales]
    exact sumBorrow_map_update hs2 hOmem hedit_other
  have hedit_old : editedSale inp ((L.map (·.line_total)).sum) oldSale =
      { oldSale with
        customer_name := inp.customer_name,
        payment_type := inp.payment_type,
        discount_amount := inp.discount_amount,
        paid_amount := inp.paid_amount,
        total_amount := (L.map (·.line_total)).sum,
        borrow_amount := clampedBorrow inp.payment_type
          ((L.map (·.line_total)).sum) inp.paid_amount } := by
    rw [editedSale, if_pos hOid]
  have hms := maybeSync_fields inp.customer_name
    (syncOldIfChanged oldSale.customer_name inp.customer_name dbE)
  have hos := syncOldIfChanged_fields oldSale.customer_name
    inp.customer_name dbE
  have hmk := maybeSync_keys inp.customer_name
    (syncOldIfChanged oldSale.customer_name inp.customer_name dbE)
  have hok2 := syncOldIfChanged_keys oldSale.customer_name
    inp.customer_name dbE
  have h1sales : db1.sales = dbE.sales := by
    rw [hdb1, hms.2.2.2.1, hos.2.2.2.1]
  have hnames1 : db1.borrowers.map (·.name) = db.borrowers.map (·.name) := by
    rw [hdb1, hmk.2, hok2.2, hEb]
  have hnnE : ∀ z ∈ dbE.sales, 0 ≤ z.borrow_amount := by
    intro z hz
    rw [hEsales] at hz
    obtain ⟨x, hx, rfl⟩ := List.mem_map.mp hz
    rw [editedSale]
    split
    · exact clampedBorrow_nonneg _ _ _
    · exact hb x hx
  have hBnew : ∀ s ∈ db1.sales, 0 ≤ s.borrow_amount := by
    intro s hs
    rw [h1sales] at hs
    exact hnnE s hs
  have hCnew : ∀ s ∈ db1.sales, coveredSale db1 s := by
    intro s hs
    rw [h1sales, hEsales] at hs
    obtain ⟨x, hx, rfl⟩ := List.mem_map.mp hs
    by_cases hxid : x.id = inp.sale_id
    · intro hpos
      by_cases hpt : inp.payment_type = PayType.BORROW
      · rcases hok hpt with hnone | ⟨b0, hb0, he0⟩
        · left
          rw [editedSale, if_pos hxid]
          exact hnone
        · right
          have hmm : b0.name ∈ db1.borrowers.map (·.name) := by
            rw [hnames1]
            exact List.mem_map_of_mem _ hb0
          obtain ⟨b2, hb2m, he2⟩ := List.mem_map.mp hmm
          refine ⟨b2, hb2m, ?_⟩
          rw [he2, editedSale, if_pos hxid]
          exact he0
      · exfalso
        have hp2 : 0 < clampedBorrow inp.payment_type
            ((L.map (·.line_total)).sum) inp.paid_amount := by
          have hp3 := hpos
          rw [editedSale, if_pos hxid] at hp3
          exact hp3
        rw [clampedBorrow, if_neg hpt] at hp2
        omega
    · have hxeq : editedSale inp ((L.map (·.line_total)).sum) x = x := by
        rw [editedSale, if_neg hxid]
      rw [hxeq]
      exact coveredSale_transfer hnames1 (hcov x hx)
  refine ⟨?_, hBnew, hCnew⟩
  intro y hy
  rw [h1sales]
  have hkeep : ∀ m : String, inp.customer_name ≠ some m →
      oldSale.customer_name ≠ some m →
      sumBorrow m dbE.sales = sumBorrow m db.sales := by
    intro m hm1 hm2
    rw [hsum m]
    have c1 : contrib m oldSale = 0 := by
      rw [contrib, if_neg hm2]
    have c2 : contrib m
        (editedSale inp ((L.map (·.line_total)).sum) oldSale) = 0 := by
      rw [hedit_old, contrib]
      split
      next hcond => exact absurd hcond hm1
      next => rfl
    rw [c1, c2]
    omega
  cases hcn2 : inp.customer_name with
  | none =>
      rw [hcn2] at hdb1
      simp only [maybeSync] at hdb1
      cases hon : oldSale.customer_name with
      | none =>
          rw [hon] at hdb1
          simp only [syncOldIfChanged] at hdb1
          rw [hdb1, hEb] at hy
          rw [hkeep y.name (by rw [hcn2]; simp) (by rw [hon]; simp)]
          exact ha y hy
      | some o =>
          rw [hon] at hdb1
          simp only [syncOldIfChanged] at hdb1
          rw [if_pos (show (none : Option String) ≠ some o by simp)] at hdb1
          rw [hdb1] at hy
          have hidsE : (dbE.borrowers.map (·.id)).Nodup := by
            rw [hEb]
            exact hb2
          have hnamesE : (dbE.borrowers.map (·.name)).Nodup := by
            rw [hEb]
            exact hb3
          obtain ⟨x, hxE, hxname, hcase⟩ :=
            syncBorrowerOutstanding_ledger hidsE hnamesE hnnE y hy
          rw [hEb] at hxE
          rcases hcase with ⟨hxo, hout⟩ | ⟨hxo, hout⟩
          · rw [← hxname, hxo]
            exact hout
          · rw [hout, ← hxname]
            rw [hkeep x.name (by rw [hcn2]; simp)
              (by rw [hon]; intro heq; exact hxo (Option.some.inj heq).symm)]
            exact ha x hxE
  | some c =>
      rw [hcn2] at hdb1
      simp only [maybeSync] at hdb1
      have hosf := syncOldIfChanged_fields oldSale.customer_name (some c) dbE
      have hosk := syncOldIfChanged_keys oldSale.customer_name (some c) dbE
      have hSsales : (syncOldIfChanged oldSale.customer_name
          (some c) dbE).sales = dbE.sales := hosf.2.2.2.1
      have hSids : ((syncOldIfChanged oldSale.customer_name
          (some c) dbE).borrowers.map (·.id)).Nodup := by
        rw [hosk.1, hEb]
        exact hb2
      have hSnames : ((syncOldIfChanged oldSale.customer_name
          (some c) dbE).borrowers.map (·.name)).Nodup := by
        rw [hosk.2, hEb]
        exact hb3
      have hSnn : ∀ z ∈ (syncOldIfChanged oldSale.customer_name
          (some c) dbE).sales, 0 ≤ z.borrow_amount := by
        intro z hz
        rw [hSsales] at hz
        exact hnnE z hz
      rw [hdb1] at hy
      obtain ⟨x, hxS, hxname, hcase⟩ :=
        syncBorrowerOutstanding_ledger hSids hSnames hSnn y hy
      rcases hcase with ⟨hxc, hout⟩ | ⟨hxc, hout⟩
      · rw [hSsales] at hout
        rw [← hxname, hxc]
        exact hout
      · rw [hout, ← hxname]
        cases hon : oldSale.customer_name with
        | none =>
            rw [hon] at hxS
            simp only [syncOldIfChanged] at hxS
            rw [hEb] at hxS
            rw [hkeep x.name
              (by rw [hcn2]; intro heq; exact hxc (Option.some.inj heq).symm)
              (by rw [hon]; simp)]
            exact ha x hxS
        | some o =>
            rw [hon] at hxS
            simp only [syncOldIfChanged] at hxS
            by_cases hco : (some c : Option String) ≠ some o
            · rw [if_pos hco] at hxS
              have hidsE : (dbE.borrowers.map (·.id)).Nodup := by
                rw [hEb]
                exact hb2
              have hnamesE : (dbE.borrowers.map (·.name)).Nodup := by
                rw [hEb]
                exact hb3
              obtain ⟨x2, hx2E, hx2name, hcase2⟩ :=
                syncBorrowerOutstanding_ledger hidsE hnamesE hnnE x hxS
              rw [hEb] at hx2E
              rcases hcase2 with ⟨hx2o, hout2⟩ | ⟨hx2o, hout2⟩
              · rw [hout2, ← hx2name, hx2o]
              · rw [hout2, ← hx2name]
                rw [hkeep x2.name
                  (by
                    rw [hcn2]
                    intro heq
                    exact hxc ((hx2name.symm).trans (Option.some.inj heq).symm))
                  (by
                    rw [hon]
                    intro heq
                    exact hx2o (Option.some.inj heq).symm)]
                exact ha x2 hx2E
            · rw [if_neg hco] at hxS
              rw [hEb] at hxS
              have hco2 : c = o := Option.some.inj (not_ne_iff.mp hco)
              rw [hkeep x.name
                (by rw [hcn2]; intro heq; exact hxc (Option.some.inj heq).symm)
                (by
                  rw [hon]
                  intro heq
                  exact hxc ((Option.some.inj heq).symm.trans hco2.symm))]
              exact ha x hxS

theorem borrowerLedgerOk_applyOp (op : Op) (db : DB) (hwf : WellFormed db)
    (hinv : BorrowerLedgerOk db) (hop : opBorrowOk db op) :
    BorrowerLedgerOk (applyOp op db) := by
  cases op with
  | create inp today =>
      simp only [opBorrowOk] at hop
      rw [applyOp]
      cases hc : createSale inp today db with
      | error e => exact hinv
      | ok db1 => exact borrowerLedgerOk_create hwf hinv hop hc
  | edit inp =>
      simp only [opBorrowOk] at hop
      rw [applyOp]
      cases he : editSale inp db with
      | error e => exact hinv
      | ok db1 => exact borrowerLedgerOk_edit hwf hinv hop he
  | delete sid =>
      rw [applyOp]
      cases hd : deleteSale sid db with
      | error e => exact hinv
      | ok db1 => exact borrowerLedgerOk_delete hwf hinv hd
  | payment bid amount =>
      rw [applyOp]
      cases hp : recordBorrowerPayment bid amount db with
      | error e => exact hinv
      | ok db1 => exact borrowerLedgerOk_payment hwf hinv hp
  | addstock n p e q =>
      rw [applyOp]
      cases ha2 : addStock n p e q db with
      | error e2 => exact hinv
      | ok db1 =>
          have hf := addStock_ok_fields ha2
          exact borrowerLedgerOk_transfer hinv hf.2.1 hf.2.2.2.1
  | sweep asOf =>
      rw [applyOp, moveExpiredStock]
      have hf := sweepLoop_fields asOf (expiredSelect asOf db) db
      exact borrowerLedgerOk_transfer hinv hf.2.1 hf.2.2.2.1

/-- C1 counterexample: the claim as stated fails, because createSale stores
the caller-supplied total_amount without recomputing it from the items.  From
the well-formed, totals-consistent store `dbW`, a single createSale request
whose total_amount (999) disagrees with its one item's line total (10 * 5)
commits a sale violating `total_amount = Σ line_total`. -/
theorem c1_counterexample :
    WellFormed dbW ∧ SaleTotalsOk dbW ∧
    ¬ SaleTotalsOk (runOps
      [Op.create ⟨none, PayType.CASH, [⟨1, 10, 5⟩], 999, 0, 50⟩ 10] dbW) := by
  decide

/-- C1 (amended): over any run of operations from a well-formed store
satisfying the totals invariant, the invariant `total_amount =
Σ line_total` and `line_total = price * quantity` is preserved provided
every createSale request carries a total_amount equal to the sum of
price * quantity over its items (editSale, deleteSale,
recordBorrowerPayment, addStock and the expiry sweep need no side
condition). -/
theorem c1_sale_totals : ∀ (ops : List Op) (db : DB), WellFormed db →
    SaleTotalsOk db → (∀ op ∈ ops, opTotalsOk op) →
    SaleTotalsOk (runOps ops db) := by
  intro ops
  induction ops with
  | nil =>
      intro db _ hinv _
      exact hinv
  | cons op rest ih =>
      intro db hwf hinv hops
      rw [runOps, List.foldl_cons]
      exact ih (applyOp op db) (wellFormed_applyOp op db hwf)
        (saleTotalsOk_applyOp op db hwf hinv (hops op (List.mem_cons_self _ _)))
        (fun o ho => hops o (List.mem_cons_of_mem _ ho))

/-- C1 witness: the preserved invariant at a concrete consistent run (a
cash sale of 5 Widgets at 10 with a matching caller total of 50). -/
theorem c1_sale_totals_witness :
    (WellFormed dbW ∧ SaleTotalsOk dbW ∧
      ∀ op ∈ [Op.create ⟨none, PayType.CASH, [⟨1, 10, 5⟩], 50, 0, 50⟩ 10],
        opTotalsOk op) ∧
    SaleTotalsOk (runOps
      [Op.create ⟨none, PayType.CASH, [⟨1, 10, 5⟩], 50, 0, 50⟩ 10] dbW) :=
  ⟨⟨by decide, by decide, by decide⟩,
    c1_sale_totals [Op.create ⟨none, PayType.CASH, [⟨1, 10, 5⟩], 50, 0, 50⟩ 10]
      dbW (by decide) (by decide) (by decide)⟩

/-- C5: the per-item stock debit of createSale never succeeds when the
requested quantity exceeds the product's current stock: the whole request
fails and the store is unchanged; and stock quantities stay nonnegative
over any sequence of operations from a nonnegative store. -/
theorem c5_stock_safety :
    (∀ (inp : CreateSaleIn) (today : Nat) (db : DB) (it : SaleItemIn)
        (r : StockRow), it ∈ inp.items → r ∈ db.stock →
        r.product_id = it.product_id → r.quantity < it.quantity →
        (∀ db1, createSale inp today db ≠ Except.ok db1) ∧
        applyOp (Op.create inp today) db = db) ∧
    ∀ (ops : List Op) (db : DB), StockNonneg db →
      StockNonneg (runOps ops db) := by
  constructor
  · intro inp today db it r hit hr hpid hlt
    refine ⟨createSale_insufficient hit hr hpid hlt, ?_⟩
    rw [applyOp]
    cases hc : createSale inp today db with
    | ok d => exact absurd hc (createSale_insufficient hit hr hpid hlt d)
    | error e => rfl
  · intro ops
    induction ops with
    | nil =>
        intro db h
        exact h
    | cons op rest ih =>
        intro db h
        rw [runOps, List.foldl_cons]
        exact ih (applyOp op db) (stockNonneg_applyOp op db h)

/-- C5 witness: a request for 60 Widgets against a stock of 50 fails and
changes nothing, and a run with a successful sale keeps stock
nonnegative. -/
theorem c5_stock_safety_witness :
    (∀ db1, createSale ⟨none, PayType.CASH, [⟨1, 10, 60⟩], 600, 0, 600⟩ 10 dbW ≠
      Except.ok db1) ∧
    applyOp (Op.create ⟨none, PayType.CASH, [⟨1, 10, 60⟩], 600, 0, 600⟩ 10) dbW =
      dbW ∧
    StockNonneg (runOps
      [Op.create ⟨none, PayType.CASH, [⟨1, 10, 5⟩], 50, 0, 50⟩ 10] dbW) :=
  ⟨(c5_stock_safety.1 ⟨none, PayType.CASH, [⟨1, 10, 60⟩], 600, 0, 600⟩ 10 dbW
      ⟨1, 10, 60⟩ ⟨1, 1, 50⟩ (by decide) (by decide) rfl (by decide)).1,
   (c5_stock_safety.1 ⟨none, PayType.CASH, [⟨1, 10, 60⟩], 600, 0, 600⟩ 10 dbW
      ⟨1, 10, 60⟩ ⟨1, 1, 50⟩ (by decide) (by decide) rfl (by decide)).2,
   c5_stock_safety.2
     [Op.create ⟨none, PayType.CASH, [⟨1, 10, 5⟩], 50, 0, 50⟩ 10] dbW
     (by decide)⟩

/-- C2 counterexample: the claim as stated fails, because a BORROW sale
whose paid_amount exceeds its total gets a negative (unclamped)
borrow_amount while the borrower upsert is skipped (`borrow_amount > 0`
guard), so the outstanding no longer matches the borrow sum.  Two BORROW
sales for Amit — the second overpaid — leave outstanding 15 against a
borrow sum of 10. -/
theorem c2_counterexample :
    WellFormed dbW ∧ BorrowerLedgerOk dbW ∧
    ¬ BorrowerLedgerOk (runOps
      [Op.create ⟨some "Amit", PayType.BORROW, [⟨1, 10, 2⟩], 20, 0, 5⟩ 10,
       Op.create ⟨some "Amit", PayType.BORROW, [⟨1, 10, 1⟩], 10, 0, 15⟩ 11]
      dbW) := by
  decide

/-- C2 (amended): over any run of operations from a well-formed store
satisfying the ledger invariant, every borrower's outstanding_amount stays
equal to the sum of borrow_amount over the sales carrying that borrower's
customer name, provided along the run that no BORROW creation is overpaid
(paid_amount ≤ total_amount) and every BORROW edit names no customer or an
already-known borrower.  The other operations need no side condition. -/
theorem c2_borrower_ledger : ∀ (ops : List Op) (db : DB), WellFormed db →
    BorrowerLedgerOk db → opsBorrowOk ops db →
    BorrowerLedgerOk (runOps ops db) := by
  intro ops
  induction ops with
  | nil =>
      intro db _ hinv _
      exact hinv
  | cons op rest ih =>
      intro db hwf hinv hops
      obtain ⟨h1, h2⟩ := hops
      rw [runOps, List.foldl_cons]
      exact ih (applyOp op db) (wellFormed_applyOp op db hwf)
        (borrowerLedgerOk_applyOp op db hwf hinv h1) h2

/-- C2 witness: the preserved ledger at a concrete run (a BORROW sale of 2
Widgets for Amit, paid 5 of 20, leaving outstanding 15). -/
theorem c2_borrower_ledger_witness :
    (WellFormed dbW ∧ BorrowerLedgerOk dbW ∧
      opsBorrowOk
        [Op.create ⟨some "Amit", PayType.BORROW, [⟨1, 10, 2⟩], 20, 0, 5⟩ 10]
        dbW) ∧
    BorrowerLedgerOk (runOps
      [Op.create ⟨some "Amit", PayType.BORROW, [⟨1, 10, 2⟩], 20, 0, 5⟩ 10]
      dbW) :=
  ⟨⟨by decide, by decide, by decide⟩,
    c2_borrower_ledger
      [Op.create ⟨some "Amit", PayType.BORROW, [⟨1, 10, 2⟩], 20, 0, 5⟩ 10]
      dbW (by decide) (by decide) (by decide)⟩

end Inventory
